import Mathlib

/-!
Verification of the semantic-analysis core of a Java performance scanner.

This file shallowly embeds, in Lean 4, the Rust modules
`symbol_table.rs`, `taint.rs`, `scanner/rule_handlers.rs` (java-perf plugin)
and `rules/suppression.rs`, and proves the specification's testable
properties about them.

Modelling conventions:
- Rust `HashMap<K, V>` is modelled as the extensional map `K → Option V`
  (a hash map has no observable ordering); `Vec<T>` as `List T`;
  `HashSet<String>` as `Finset String`; `PathBuf` as `String`.
- Rust `&str` operations are modelled on the character data of a Lean
  `String` (`starts_with` is prefix of `.data`, and so on).
- Fallible operations return `Option`.
-/

/-! ## Rust string primitives, modelled on character data -/

/-- Rust `str::starts_with`. -/
def rsStartsWith (s p : String) : Bool := p.data.isPrefixOf s.data

/-- Rust `str::ends_with`. -/
def rsEndsWith (s p : String) : Bool := p.data.isSuffixOf s.data

/-- Rust `str::contains(char)`. -/
def rsContainsChar (s : String) (c : Char) : Bool := s.data.contains c

/-- Substring search on character lists (Rust `str::contains(&str)`). -/
def listContainsSub (hay pat : List Char) : Bool :=
  match hay with
  | [] => pat.isEmpty
  | _ :: rest => pat.isPrefixOf hay || listContainsSub rest pat

/-- Rust `str::contains(&str)`. -/
def rsContainsStr (s p : String) : Bool := listContainsSub s.data p.data

/-- ASCII lower-casing of one character (for Rust `eq_ignore_ascii_case` /
`to_lowercase`; the identifiers scanned are ASCII). -/
def asciiLower (c : Char) : Char :=
  if 'A' ≤ c ∧ c ≤ 'Z' then Char.ofNat (c.toNat + 32) else c

/-- Rust `str::eq_ignore_ascii_case`. -/
def eqIgnoreAsciiCase (a b : String) : Bool := a.data.map asciiLower == b.data.map asciiLower

/-- Rust `str::to_lowercase` (ASCII fragment). -/
def rsToLowercase (s : String) : String := ⟨s.data.map asciiLower⟩

/-- Last component of a dotted name: Rust `s.rsplit('.').next().unwrap_or(s)`.
`rsplit('.')` yields the segments from the right, so `.next()` is the maximal
dot-free suffix (the whole string if it has no dot). -/
def rsLastDotSegment (s : String) : String :=
  ⟨(s.data.reverse.takeWhile (fun c => !(c == '.'))).reverse⟩

/-! ## symbol_table.rs: layers and type information -/

/-- Architectural layer of a class (`symbol_table.rs`, `enum LayerType`). -/
inductive LayerType where
  | Controller
  | Service
  | Repository
  | Component
  | Unknown
deriving DecidableEq, Repr

/-- Type information for one top-level class (`symbol_table.rs`, `struct TypeInfo`).
`file` models the Rust `PathBuf` as a plain string. -/
structure TypeInfo where
  name : String
  fqn : String
  package : Option String
  annotations : List String
  layer : LayerType
  file : String
  line : Nat
deriving DecidableEq, Repr

/-- `TypeInfo::new_with_package`: builds the FQN as `package.name` when a
non-empty package is present, else the bare name. -/
def TypeInfo.new_with_package (name : String) (package : Option String) (file : String)
    (line : Nat) : TypeInfo :=
  let fqn := match package with
    | some pkg => if pkg = "" then name else pkg ++ "." ++ name
    | none => name
  { name := name, fqn := fqn, package := package, annotations := [],
    layer := LayerType.Unknown, file := file, line := line }

/-- `TypeInfo::is_dao`. -/
def TypeInfo.is_dao (t : TypeInfo) : Bool :=
  t.layer == LayerType.Repository
    || t.annotations.any (fun a =>
        a == "Repository" || a == "Mapper" || rsEndsWith a "Repository" || rsEndsWith a "Dao")
    || rsEndsWith t.name "Repository"
    || rsEndsWith t.name "Dao"
    || rsEndsWith t.name "Mapper"

/-- Field/variable binding (`symbol_table.rs`, `struct VarBinding`). -/
structure VarBinding where
  name : String
  type_name : String
  is_field : Bool
  annotations : List String
deriving DecidableEq, Repr

/-- `VarBinding::new`. -/
def VarBinding.new (name type_name : String) (is_field : Bool) : VarBinding :=
  { name := name, type_name := type_name, is_field := is_field, annotations := [] }

/-- Method parameter (`symbol_table.rs`, `struct ParamInfo`). -/
structure ParamInfo where
  name : String
  type_name : String
deriving DecidableEq, Repr

/-- Method information (`symbol_table.rs`, `struct MethodInfo`). -/
structure MethodInfo where
  name : String
  class_name : String
  return_type : Option String
  params : List ParamInfo
  annotations : List String
  line : Nat
deriving DecidableEq, Repr

/-! ## symbol_table.rs: ImportIndex -/

/-- Per-file import resolution index (`symbol_table.rs`, `struct ImportIndex`).
The `explicit` hash map is modelled extensionally. -/
structure ImportIndex where
  explicit : String → Option String
  wildcards : List String
  package : Option String
  local_classes : List String

/-- `is_java_lang_class`: the fixed allow-list of implicitly imported
`java.lang` classes. -/
def is_java_lang_class (name : String) : Bool :=
  name == "String" || name == "Object" || name == "Integer" || name == "Long"
    || name == "Double" || name == "Float" || name == "Boolean" || name == "Byte"
    || name == "Short" || name == "Character" || name == "Number" || name == "Class"
    || name == "System" || name == "Thread" || name == "Runnable" || name == "Exception"
    || name == "RuntimeException" || name == "Error" || name == "Throwable"
    || name == "StringBuilder" || name == "StringBuffer" || name == "Math"
    || name == "Comparable" || name == "Iterable" || name == "Enum" || name == "Override"
    || name == "Deprecated" || name == "SuppressWarnings" || name == "FunctionalInterface"

/-- Step 4 of `ImportIndex::resolve`: the `java.lang` fallback. -/
def resolveJavaLang (simple_name : String) (known_classes : String → Option String) :
    Option String :=
  if is_java_lang_class simple_name || (known_classes ("java.lang." ++ simple_name)).isSome
  then some ("java.lang." ++ simple_name)
  else none

/-- `ImportIndex::resolve`: explicit imports, then wildcard imports checked
against the known classes, then same-package (local classes or known classes),
then the `java.lang` allow-list; `none` when nothing applies.
`known_classes` models the `HashMap<String, String>` keyed by FQN: only key
membership is consulted. -/
def ImportIndex.resolve (idx : ImportIndex) (simple_name : String)
    (known_classes : String → Option String) : Option String :=
  match idx.explicit simple_name with
  | some fqn => some fqn
  | none =>
    match idx.wildcards.find? (fun pkg => (known_classes (pkg ++ "." ++ simple_name)).isSome) with
    | some pkg => some (pkg ++ "." ++ simple_name)
    | none =>
      match idx.package with
      | some pkg =>
        if idx.local_classes.contains simple_name then some (pkg ++ "." ++ simple_name)
        else if (known_classes (pkg ++ "." ++ simple_name)).isSome then
          some (pkg ++ "." ++ simple_name)
        else resolveJavaLang simple_name known_classes
      | none => resolveJavaLang simple_name known_classes

/-- Outcome of resolution step 2 of `ImportIndex::resolve` taken alone: the
first wildcard package whose `pkg.simpleName` is a known FQN. -/
def resolveWildcard (idx : ImportIndex) (simple_name : String)
    (known_classes : String → Option String) : Option String :=
  (idx.wildcards.find? (fun pkg => (known_classes (pkg ++ "." ++ simple_name)).isSome)).map
    (fun pkg => pkg ++ "." ++ simple_name)

/-- Outcome of resolution step 3 of `ImportIndex::resolve` taken alone: the
same-package rule (locally declared class, or known class in this package). -/
def resolveSamePackage (idx : ImportIndex) (simple_name : String)
    (known_classes : String → Option String) : Option String :=
  match idx.package with
  | some pkg =>
    if idx.local_classes.contains simple_name then some (pkg ++ "." ++ simple_name)
    else if (known_classes (pkg ++ "." ++ simple_name)).isSome then
      some (pkg ++ "." ++ simple_name)
    else none
  | none => none

/-! ## symbol_table.rs: SymbolTable -/

/-- The global symbol table (`symbol_table.rs`, `struct SymbolTable`); all hash
maps are modelled extensionally, `method_index` keyed by (class, method name). -/
@[ext]
structure SymbolTable where
  classes : String → Option TypeInfo
  simple_name_index : String → Option (List String)
  fields : String × String → Option VarBinding
  methods : String × String → Option MethodInfo
  method_index : String × String → Option (List String)

/-- `SymbolTable::new`. -/
def SymbolTable.new : SymbolTable :=
  { classes := fun _ => none, simple_name_index := fun _ => none,
    fields := fun _ => none, methods := fun _ => none, method_index := fun _ => none }

/-- `HashMap::extend`: entries of `other` overwrite entries of `self`. -/
def extendMap {α β : Type} (self other : α → Option β) : α → Option β :=
  fun k => match other k with
    | some v => some v
    | none => self k

/-- One step of the duplicate-free push used by `SymbolTable::merge` for
`simple_name_index` (`if !entry.contains(&fqn) { entry.push(fqn) }`). -/
def pushUnique (l : List String) (x : String) : List String :=
  if x ∈ l then l else l ++ [x]

/-- The `simple_name_index` merge loop: push each incoming FQN unless already
present (deduplicating against the growing entry). -/
def extendUnique (l xs : List String) : List String := xs.foldl pushUnique l

/-- One entry of the `entry(key).or_default().extend(values)` merge pattern on
a map of lists: append the incoming list to the existing entry (which defaults
to the empty list). -/
def appendEntry {β : Type} (self other : Option (List β)) : Option (List β) :=
  match other with
  | none => self
  | some xs => some (self.getD [] ++ xs)

/-- One entry of the deduplicating merge of `simple_name_index`. -/
def dedupEntry (self other : Option (List String)) : Option (List String) :=
  match other with
  | none => self
  | some fqns => some (extendUnique (self.getD []) fqns)

/-- `SymbolTable::merge` (used for the parallel reduce): `classes`, `fields`
and `methods` via `HashMap::extend` (last write wins); `method_index` entries
appended; `simple_name_index` entries appended with deduplication. -/
def SymbolTable.merge (self other : SymbolTable) : SymbolTable where
  classes := extendMap self.classes other.classes
  fields := extendMap self.fields other.fields
  methods := extendMap self.methods other.methods
  method_index := fun k => appendEntry (self.method_index k) (other.method_index k)
  simple_name_index := fun k => dedupEntry (self.simple_name_index k) (other.simple_name_index k)

/-- `SymbolTable::register_class_fqn`: insert keyed by the FQN and append the
FQN to the simple-name reverse index unless already present. -/
def SymbolTable.register_class_fqn (self : SymbolTable) (info : TypeInfo) : SymbolTable :=
  { self with
    classes := fun k => if k = info.fqn then some info else self.classes k
    simple_name_index := fun k =>
      if k = info.name then
        some (pushUnique ((self.simple_name_index info.name).getD []) info.fqn)
      else self.simple_name_index k }

/-- `SymbolTable::register_field`. -/
def SymbolTable.register_field (self : SymbolTable) (cls : String) (binding : VarBinding) :
    SymbolTable :=
  { self with
    fields := fun k => if k = (cls, binding.name) then some binding else self.fields k }

/-- `SymbolTable::lookup_var_type`: find the field binding, then look the
bound type name up in `classes`. -/
def SymbolTable.lookup_var_type (self : SymbolTable) (cls var_name : String) : Option TypeInfo :=
  match self.fields (cls, var_name) with
  | some binding => self.classes binding.type_name
  | none => none

/-- `SymbolTable::is_dao_var`: structural lookup first, then name guessing. -/
def SymbolTable.is_dao_var (self : SymbolTable) (cls var_name : String) : Bool :=
  match self.lookup_var_type cls var_name with
  | some type_info => type_info.is_dao
  | none =>
    rsEndsWith var_name "Repository" || rsEndsWith var_name "Dao"
      || rsEndsWith var_name "Mapper" || rsContainsStr var_name "repository"
      || rsContainsStr var_name "dao"

/-- The fixed vocabulary of DAO method-name patterns in `is_dao_call`. -/
def dao_methods : List String :=
  ["find", "save", "delete", "update", "insert", "select",
   "getById", "findById", "findAll", "findOne",
   "saveAll", "deleteById", "deleteAll",
   "execute", "query", "count"]

/-- `SymbolTable::is_dao_call`: receiver type check, then method-name patterns. -/
def SymbolTable.is_dao_call (self : SymbolTable) (cls receiver method : String) : Bool :=
  if self.is_dao_var cls receiver then true
  else dao_methods.any (fun p => rsStartsWith method p || rsContainsStr method p)

/-- `SymbolTable::lookup_by_fqn`. -/
def SymbolTable.lookup_by_fqn (self : SymbolTable) (fqn : String) : Option TypeInfo :=
  self.classes fqn

/-- `SymbolTable::lookup_by_simple_name`: all classes behind the reverse-index
entry, or the legacy direct key as fallback. -/
def SymbolTable.lookup_by_simple_name (self : SymbolTable) (simple_name : String) :
    List TypeInfo :=
  match self.simple_name_index simple_name with
  | some fqns => fqns.filterMap (fun fqn => self.classes fqn)
  | none => (self.classes simple_name).toList

/-! ## taint.rs: MethodSig, CallSite, CallGraph -/

namespace Taint

/-- Architectural layer as tracked by the call graph (`taint.rs`,
`enum LayerType`; it has no `Component` variant). -/
inductive LayerType where
  | Controller
  | Service
  | Repository
  | Unknown
deriving DecidableEq, Repr

/-- Method signature (`taint.rs`, `struct MethodSig`): class FQN (or the
`UNRESOLVED:`-prefixed simple name) plus method name. -/
structure MethodSig where
  class_fqn : String
  name : String
deriving DecidableEq, Repr

/-- `MethodSig::new` (legacy simple-name constructor). -/
def MethodSig.new (cls name : String) : MethodSig :=
  { class_fqn := cls, name := name }

/-- `MethodSig::new_fqn`. -/
def MethodSig.new_fqn (class_fqn name : String) : MethodSig :=
  { class_fqn := class_fqn, name := name }

/-- `MethodSig::full_name`. -/
def MethodSig.full_name (m : MethodSig) : String := m.class_fqn ++ "." ++ m.name

/-- `MethodSig::has_valid_fqn`: contains a dot and is not marked unresolved. -/
def MethodSig.has_valid_fqn (m : MethodSig) : Bool :=
  rsContainsChar m.class_fqn '.' && !(rsStartsWith m.class_fqn "UNRESOLVED:")

/-- `MethodSig::is_unresolved`. -/
def MethodSig.is_unresolved (m : MethodSig) : Bool :=
  rsStartsWith m.class_fqn "UNRESOLVED:"

/-- `MethodSig::simple_class_name`: strip the sentinel (11 characters,
`"UNRESOLVED:".len()`), else the last dot-separated component. -/
def MethodSig.simple_class_name (m : MethodSig) : String :=
  if rsStartsWith m.class_fqn "UNRESOLVED:" then ⟨m.class_fqn.data.drop 11⟩
  else rsLastDotSegment m.class_fqn

/-- The `known_classes` snapshot built inside `MethodSig::resolve` from
`symbol_table.classes.iter().map(|(fqn, info)| (fqn, info.name))`. -/
def SymbolTable.known_classes_map (st : SymbolTable) : String → Option String :=
  fun fqn => (st.classes fqn).map (fun info => info.name)

/-- `MethodSig::resolve`: a receiver that already contains a dot is used
verbatim; otherwise resolve through the file's ImportIndex against the symbol
table's FQNs; on failure tag the original simple name with `UNRESOLVED:`. -/
def MethodSig.resolve (simple_class method_name : String) (import_index : ImportIndex)
    (symbol_table : SymbolTable) : MethodSig :=
  if rsContainsChar simple_class '.' then MethodSig.new_fqn simple_class method_name
  else
    match import_index.resolve simple_class (SymbolTable.known_classes_map symbol_table) with
    | some fqn => MethodSig.new_fqn fqn method_name
    | none => { class_fqn := "UNRESOLVED:" ++ simple_class, name := method_name }

/-- Call site (`taint.rs`, `struct CallSite`); `file` models `PathBuf`. -/
structure CallSite where
  file : String
  line : Nat
  callee : MethodSig
  caller : MethodSig
deriving DecidableEq, Repr

/-- Call graph (`taint.rs`, `struct CallGraph`); adjacency hash maps are
modelled extensionally. -/
@[ext]
structure CallGraph where
  outgoing : MethodSig → Option (List CallSite)
  incoming : MethodSig → Option (List CallSite)
  class_index : String → Option String
  class_layers : String → Option LayerType

/-- `CallGraph::new`. -/
def CallGraph.new : CallGraph :=
  { outgoing := fun _ => none, incoming := fun _ => none,
    class_index := fun _ => none, class_layers := fun _ => none }

/-- `CallGraph::merge` (parallel reduce): adjacency entries appended,
class maps extended (last write wins). -/
def CallGraph.merge (self other : CallGraph) : CallGraph where
  outgoing := fun k => appendEntry (self.outgoing k) (other.outgoing k)
  incoming := fun k => appendEntry (self.incoming k) (other.incoming k)
  class_index := extendMap self.class_index other.class_index
  class_layers := extendMap self.class_layers other.class_layers

/-- `CallGraph::add_call`: records the call site on both the caller's
outgoing list and the callee's incoming list. -/
def CallGraph.add_call (g : CallGraph) (caller callee : MethodSig) (file : String)
    (line : Nat) : CallGraph :=
  let call_site : CallSite := { file := file, line := line, callee := callee, caller := caller }
  { g with
    outgoing := fun k =>
      if k = caller then some ((g.outgoing k).getD [] ++ [call_site]) else g.outgoing k
    incoming := fun k =>
      if k = callee then some ((g.incoming k).getD [] ++ [call_site]) else g.incoming k }

/-- `CallGraph::register_class`. -/
def CallGraph.register_class (g : CallGraph) (class_fqn : String) (file : String)
    (layer : LayerType) : CallGraph :=
  { g with
    class_index := fun k => if k = class_fqn then some file else g.class_index k
    class_layers := fun k => if k = class_fqn then some layer else g.class_layers k }

/-- `CallGraph::dfs_trace`: the recursive depth-first search. Stops at depth
zero; accepts the current path when the current node's layer (FQN lookup,
falling back to the simple class name) equals the target and the path is
longer than one; otherwise explores unvisited callees with one less depth.
The per-branch visited set and path are restored after each branch in the
Rust code, so they are threaded as plain arguments here. -/
def CallGraph.dfs_trace (g : CallGraph) (target_layer : LayerType) :
    Nat → MethodSig → List MethodSig → List MethodSig → List (List MethodSig)
  | 0, _, _, _ => []
  | remaining_depth + 1, current, path, visited =>
    let layer := match g.class_layers current.class_fqn with
      | some l => some l
      | none => g.class_layers current.simple_class_name
    if layer = some target_layer ∧ path.length > 1 then [path]
    else
      match g.outgoing current with
      | none => []
      | some callees =>
        callees.flatMap (fun call_site =>
          if call_site.callee ∈ visited then []
          else
            g.dfs_trace target_layer remaining_depth call_site.callee
              (path ++ [call_site.callee]) (call_site.callee :: visited))

/-- `CallGraph::trace_to_layer`: bounded DFS from `start`, with the path
initialised to `[start]` and an empty visited set. -/
def CallGraph.trace_to_layer (g : CallGraph) (start : MethodSig) (target_layer : LayerType)
    (max_depth : Nat) : List (List MethodSig) :=
  g.dfs_trace target_layer max_depth start [start] []

end Taint

/-! ## scanner: issues, severities, confidences

The `scanner` module root (defining `Issue`, `Severity`, `Confidence`) is not
part of the provided sources; these three declarations are modelled from the
spec's data model: severity `P0|P1`, optional confidence `High|Medium|Low`,
and an Issue carrying rule id, severity, file, 1-based line, description,
optional evidence string and optional confidence.
-/

/-- Modelled from the spec: severity tier of an issue (`P0` critical, `P1`
warning); the missing `scanner` module root defines the Rust enum. -/
inductive Severity where
  | P0
  | P1
deriving DecidableEq, Repr

/-- Modelled from the spec: confidence tier of a semantic judgment; the
missing `scanner` module root defines the Rust enum. -/
inductive Confidence where
  | High
  | Medium
  | Low
deriving DecidableEq, Repr

/-- Modelled from the spec: a reported issue (rule id, severity, file, 1-based
line, description, optional context/evidence, optional confidence); the
missing `scanner` module root defines the Rust struct. -/
structure Issue where
  id : String
  severity : Severity
  file : String
  line : Nat
  description : String
  context : Option String
  confidence : Option Confidence
deriving DecidableEq, Repr

/-! ## scanner/rule_handlers.rs: NPlusOneHandler -/

/-- The DAO method-name patterns of `NPlusOneHandler::is_dao_method`. -/
def nPlusOneDaoPatterns : List String :=
  ["findBy", "findAll", "findOne", "findById",
   "saveAll", "saveAndFlush",
   "deleteBy", "deleteAll", "deleteById",
   "selectBy", "selectAll", "selectOne", "selectList",
   "queryBy", "queryFor", "queryAll",
   "loadBy", "loadAll", "fetchBy", "fetchAll",
   "insertBy", "insert", "updateBy", "update",
   "getById", "getOne", "getAll", "getList"]

/-- `NPlusOneHandler::is_dao_method`. -/
def NPlusOneHandler.is_dao_method (method_name : String) : Bool :=
  nPlusOneDaoPatterns.any (fun p =>
    rsStartsWith method_name p || eqIgnoreAsciiCase method_name p)

/-- `NPlusOneHandler::is_dao_receiver`. -/
def NPlusOneHandler.is_dao_receiver (receiver : String) : Bool :=
  let receiver_lower := rsToLowercase receiver
  rsContainsStr receiver_lower "repo" || rsContainsStr receiver_lower "dao"
    || rsContainsStr receiver_lower "mapper" || rsContainsStr receiver_lower "service"

/-- The suspicion/confidence decision of `NPlusOneHandler::handle`: semantic
mode resolves the receiver through the symbol table (High when the resolved
type's FQN contains a dot, Medium otherwise), falls back to the method-name
heuristic when there is no receiver, and to pure heuristics (Low) when no
symbol table is available. -/
def NPlusOneHandler.suspicion (symbol_table : Option SymbolTable)
    (current_class receiver_name method_name_text : String) : Bool × Option Confidence :=
  match symbol_table with
  | some st =>
    if receiver_name ≠ "" then
      let is_dao := st.is_dao_call current_class receiver_name method_name_text
      if is_dao then
        let has_fqn := ((st.lookup_var_type current_class receiver_name).map
          (fun type_info => rsContainsChar type_info.fqn '.')).getD false
        if has_fqn then (true, some Confidence.High)
        else (true, some Confidence.Medium)
      else (false, none)
    else
      if NPlusOneHandler.is_dao_method method_name_text then (true, some Confidence.Low)
      else (false, none)
  | none =>
    if NPlusOneHandler.is_dao_method method_name_text
        || NPlusOneHandler.is_dao_receiver receiver_name then
      (true, some Confidence.Low)
    else (false, none)

/-- The call-chain evidence string of `NPlusOneHandler::handle`, built from
the first path found by `trace_to_layer` towards the Repository layer. -/
def NPlusOneHandler.callChainInfo (call_graph : Option Taint.CallGraph)
    (current_class : String) : Option String :=
  match call_graph with
  | some cg =>
    let caller := Taint.MethodSig.new current_class "current_method"
    let paths := cg.trace_to_layer caller Taint.LayerType.Repository 5
    match paths with
    | [] => none
    | p :: _ =>
      some (" [调用链验证: "
        ++ String.intercalate " → "
            (p.map (fun m => m.simple_class_name ++ "." ++ m.name))
        ++ "]")
  | none => none

/-- The confidence suffix appended to the issue context by
`NPlusOneHandler::handle`. -/
def NPlusOneHandler.confidenceIndicator (confidence : Option Confidence) : String :=
  match confidence with
  | some Confidence.High => " [高置信度: FQN已解析]"
  | some Confidence.Medium => " [中置信度: 部分解析]"
  | some Confidence.Low => " [低置信度: 启发式检测]"
  | none => ""

/-- `NPlusOneHandler::handle`, lines 229-318: the decision and issue
construction. The tree-sitter capture extraction (receiver text, method name
text and the call node's 1-based line) and the file name are modelled as given
inputs. Emits at most one issue, at the captured call line. -/
def NPlusOneHandler.handle (symbol_table : Option SymbolTable)
    (call_graph : Option Taint.CallGraph) (current_class receiver_name method_name_text : String)
    (file : String) (line : Nat) (severity : Severity) (description : String) : Option Issue :=
  let sc := NPlusOneHandler.suspicion symbol_table current_class receiver_name method_name_text
  let is_suspicious := sc.1
  let confidence := sc.2
  if is_suspicious then
    let call_chain_info := NPlusOneHandler.callChainInfo call_graph current_class
    let context_str :=
      receiver_name ++ "." ++ method_name_text ++ "()"
        ++ call_chain_info.getD ""
        ++ NPlusOneHandler.confidenceIndicator confidence
    some { id := "N_PLUS_ONE", severity := severity, file := file, line := line,
           description := description, context := some context_str,
           confidence := confidence }
  else none

/-! ## scanner/rule_handlers.rs: ThreadLocalLeakHandler

Tree-sitter syntax nodes are modelled as a rose tree: a node has a kind, its
source text (for `utf8_text`), the named fields (for `child_by_field_name`)
and the ordered children (for `child(i)` and cursor traversal). The mutual
lists make structural recursion available.
-/

mutual
/-- A tree-sitter syntax node of the parsed Java file. -/
inductive JNode where
  | mk (kind : String) (text : String) (fields : JFields) (children : JKids)
/-- Named fields of a node (`child_by_field_name`). -/
inductive JFields where
  | nil
  | cons (fieldName : String) (node : JNode) (rest : JFields)
/-- Ordered child list of a node. -/
inductive JKids where
  | nil
  | cons (head : JNode) (tail : JKids)
end

/-- Node kind (`Node::kind`). -/
def JNode.kind : JNode → String
  | .mk k _ _ _ => k

/-- Node source text (`Node::utf8_text`). -/
def JNode.text : JNode → String
  | .mk _ t _ _ => t

/-- Named fields of a node. -/
def JNode.fieldsF : JNode → JFields
  | .mk _ _ f _ => f

/-- Children of a node. -/
def JNode.kids : JNode → JKids
  | .mk _ _ _ c => c

/-- `Node::child_by_field_name`: first field with the given name. -/
def JFields.lookup (name : String) : JFields → Option JNode
  | .nil => none
  | .cons fieldName node rest =>
    if fieldName = name then some node else JFields.lookup name rest

/-- Direct-children test (the `for i in 0..node.child_count()` loops). -/
def JKids.any (p : JNode → Bool) : JKids → Bool
  | .nil => false
  | .cons n l => p n || JKids.any p l

mutual
/-- Whether some node of the subtree satisfies `p`. This is the cursor loop of
`find_remove_in_finally_recursive` / `find_remove_call_recursive`: visit the
current node, then recurse into children, then move to the next sibling. -/
def anyNode (p : JNode → Bool) : JNode → Bool
  | .mk k t f c => p (.mk k t f c) || anyKids p c
/-- Sibling part of the cursor loop of `anyNode`. -/
def anyKids (p : JNode → Bool) : JKids → Bool
  | .nil => false
  | .cons n l => anyNode p n || anyKids p l
end

mutual
/-- `OccursN d n`: node `d` is `n` itself or a descendant of `n`. -/
inductive OccursN : JNode → JNode → Prop
  | refl (n) : OccursN n n
  | inKids {d : JNode} {k t : String} {f : JFields} {c : JKids} :
      OccursK d c → OccursN d (.mk k t f c)
/-- `OccursK d c`: node `d` occurs in one of the trees of the list `c`. -/
inductive OccursK : JNode → JKids → Prop
  | head {d n : JNode} {l : JKids} : OccursN d n → OccursK d (.cons n l)
  | tail {d n : JNode} {l : JKids} : OccursK d l → OccursK d (.cons n l)
end

/-- Membership in a direct-children list. -/
inductive MemKids : JNode → JKids → Prop
  | head (n : JNode) (l : JKids) : MemKids n (.cons n l)
  | tail {n m : JNode} {l : JKids} : MemKids n l → MemKids n (.cons m l)

/-- The `var_name.remove()` test of `find_remove_call_recursive`: a
`method_invocation` whose `object` field text is the variable and whose
`name` field text is `remove`. -/
def isRemoveCall (var_name : String) (n : JNode) : Bool :=
  n.kind == "method_invocation" &&
    match n.fieldsF.lookup "object", n.fieldsF.lookup "name" with
    | some obj, some methodNode => obj.text == var_name && methodNode.text == "remove"
    | _, _ => false

/-- The acquisition call `var_name.set(...)` (used by the specification's
notion of a finally covering the acquisition). -/
def isSetCall (var_name : String) (n : JNode) : Bool :=
  n.kind == "method_invocation" &&
    match n.fieldsF.lookup "object", n.fieldsF.lookup "name" with
    | some obj, some methodNode => obj.text == var_name && methodNode.text == "set"
    | _, _ => false

/-- `ThreadLocalLeakHandler::finally_contains_remove`: walk the finally
clause's subtree for `var_name.remove()`. -/
def finally_contains_remove (finally_node : JNode) (var_name : String) : Bool :=
  anyNode (isRemoveCall var_name) finally_node

/-- The per-node test of `find_remove_in_finally_recursive`: a
`try_statement` one of whose direct `finally_clause` children contains
`var_name.remove()`. -/
def tryWithFinallyRemove (var_name : String) (n : JNode) : Bool :=
  n.kind == "try_statement" &&
    n.kids.any (fun child =>
      child.kind == "finally_clause" && finally_contains_remove child var_name)

/-- `ThreadLocalLeakHandler::has_remove_in_finally`: some try statement in the
method subtree has a finally clause containing `var_name.remove()`. -/
def has_remove_in_finally (method_node : JNode) (var_name : String) : Bool :=
  anyNode (tryWithFinallyRemove var_name) method_node

/-- `ThreadLocalLeakHandler::has_remove_anywhere`. -/
def has_remove_anywhere (method_node : JNode) (var_name : String) : Bool :=
  anyNode (isRemoveCall var_name) method_node

/-- `ThreadLocalLeakHandler::determine_severity`: no issue when the remove is
in a finally, `P1` when a remove exists elsewhere, `P0` when there is none. -/
def determine_severity (method_node : JNode) (var_name : String) : Option Severity :=
  let has_finally_remove := has_remove_in_finally method_node var_name
  let has_any_remove := has_remove_anywhere method_node var_name
  match has_finally_remove, has_any_remove with
  | true, _ => none
  | false, true => some Severity.P1
  | false, false => some Severity.P0

/-- Modelled from the spec: a cleanup call sits inside a `finally` covering
the acquisition. Some try statement in the method contains the acquisition
(`var_name.set(...)`) in a non-finally child and `var_name.remove()` inside
one of its `finally_clause` children. This is the claim's reading, used to
compare the specified grading with the implemented one. -/
def removeInCoveringFinally (method_node : JNode) (var_name : String) : Bool :=
  anyNode (fun tryNode =>
    tryNode.kind == "try_statement"
      && tryNode.kids.any (fun child =>
          !(child.kind == "finally_clause") && anyNode (isSetCall var_name) child)
      && tryNode.kids.any (fun child =>
          child.kind == "finally_clause" && anyNode (isRemoveCall var_name) child))
    method_node

/-! ## rules/suppression.rs

The directive comment regex
`java-perf-ignore(?:-next-line)?(?:-file)?:\s*([A-Z_,\s]+)` is modelled by a
direct matcher with the regex crate's leftmost-first, greedy semantics.
Taking the optional literals greedily without backtracking is exact here:
whenever `-next-line` (resp. `-file`) is a prefix of the remaining input, the
alternative that skips it fails immediately at the following literal, since
neither `-file` nor `:` starts with `-n` (resp. `-f`). The greedy `\s*`
followed by the character class `[A-Z_,\s]+` (which itself includes
whitespace) backtracks at most one character: the class run starts right
after the maximal whitespace run if a class character follows, and otherwise
the capture degenerates to the last whitespace character (if any).
-/

/-- The regex crate's `\s` on the ASCII range (the scanned sources are
ASCII): space, tab, line feed, vertical tab, form feed, carriage return. -/
def isRustWs (c : Char) : Bool :=
  c == ' ' || c == '\t' || c == '\n' || c == Char.ofNat 11 || c == Char.ofNat 12 || c == '\r'

/-- The character class `[A-Z_,\s]` of the directive regex. -/
def suppressClassChar (c : Char) : Bool :=
  ((decide ('A' ≤ c)) && (decide (c ≤ 'Z'))) || c == '_' || c == ',' || isRustWs c

/-- Match a literal at the head of the input and return the rest. -/
def dropLit (pat l : List Char) : Option (List Char) :=
  if pat.isPrefixOf l then some (l.drop pat.length) else none

/-- Greedy optional literal (`(?:lit)?`). -/
def tryLit (pat l : List Char) : List Char := (dropLit pat l).getD l

/-- Match `\s*([A-Z_,\s]+)` after the colon, returning the capture. -/
def matchAfterColon (t : List Char) : Option (List Char) :=
  let w := t.takeWhile isRustWs
  let rest := t.dropWhile isRustWs
  match rest with
  | c :: _ =>
    if suppressClassChar c then some (rest.takeWhile suppressClassChar)
    else
      match w.getLast? with
      | some d => some [d]
      | none => none
  | [] =>
    match w.getLast? with
    | some d => some [d]
    | none => none

/-- Match the whole directive pattern anchored at the head of the input,
returning the capture group. -/
def matchDirectiveAt (l : List Char) : Option (List Char) :=
  match dropLit "java-perf-ignore".data l with
  | none => none
  | some l1 =>
    let l2 := tryLit "-next-line".data l1
    let l3 := tryLit "-file".data l2
    match dropLit ":".data l3 with
    | none => none
    | some t => matchAfterColon t

/-- `SUPPRESS_COMMENT_REGEX.captures(line)`: leftmost match of the directive
pattern, returning the capture group. -/
def findDirective : List Char → Option (List Char)
  | [] => none
  | c :: rest =>
    match matchDirectiveAt (c :: rest) with
    | some capture => some capture
    | none => findDirective rest

/-- Rust `str::split(char)` (keeps empty segments). -/
def rsSplitChar (sep : Char) (l : List Char) : List (List Char) :=
  l.foldr (fun x acc =>
    match acc with
    | [] => [[x]]
    | seg :: segs => if x = sep then [] :: seg :: segs else (x :: seg) :: segs) [[]]

/-- Rust `str::trim` (ASCII whitespace fragment). -/
def rsTrim (l : List Char) : List Char :=
  ((l.dropWhile isRustWs).reverse.dropWhile isRustWs).reverse

/-- The rule-id set of a directive:
`capture.split(',').map(trim).filter(non-empty)` collected into a set. -/
def ruleIdsOfCapture (capture : List Char) : Finset String :=
  (((rsSplitChar ',' capture).map (fun seg => (⟨rsTrim seg⟩ : String))).filter
    (fun s => !(s == ""))).toFinset

/-- Scope of one suppression directive (`suppression.rs`,
`enum SuppressionType`). -/
inductive SuppressionType where
  | Line
  | NextLine
  | File
deriving DecidableEq, Repr

/-- One parsed directive (`suppression.rs`, `struct Suppression`); an empty
`rule_ids` set means "suppress everything". -/
structure Suppression where
  suppression_type : SuppressionType
  rule_ids : Finset String
  line : Nat
deriving DecidableEq

/-- `parse_comment_suppression`: gate on the literal `java-perf-ignore`, run
the directive regex, and classify the scope by substring tests on the whole
line. -/
def parse_comment_suppression (line : String) (line_number : Nat) : Option Suppression :=
  if !(rsContainsStr line "java-perf-ignore") then none
  else
    match findDirective line.data with
    | none => none
    | some capture =>
      let rule_ids := ruleIdsOfCapture capture
      let suppression_type :=
        if rsContainsStr line "ignore-file" then SuppressionType.File
        else if rsContainsStr line "ignore-next-line" then SuppressionType.NextLine
        else SuppressionType.Line
      some { suppression_type := suppression_type, rule_ids := rule_ids, line := line_number }

/-- A rule-id character (`[A-Z_]` in `RULE_ID_REGEX`). -/
def ruleIdChar (c : Char) : Bool :=
  ((decide ('A' ≤ c)) && (decide (c ≤ 'Z'))) || c == '_'

/-- One match of `RULE_ID_REGEX` (`java-perf:([A-Z_]+)`) anchored at the head
of the input: the captured id and the remaining input. -/
def ruleIdAt (l : List Char) : Option (String × List Char) :=
  match dropLit "java-perf:".data l with
  | none => none
  | some t =>
    let run := t.takeWhile ruleIdChar
    if run.isEmpty then none else some (⟨run⟩, t.drop run.length)

/-- `RULE_ID_REGEX.captures_iter`: all non-overlapping matches left to right.
Each successful match consumes at least one character, so the input length is
sufficient fuel. -/
def findRuleIdsAux : Nat → List Char → List String
  | 0, _ => []
  | _ + 1, [] => []
  | fuel + 1, c :: rest =>
    match ruleIdAt (c :: rest) with
    | some (rid, remainder) => rid :: findRuleIdsAux fuel remainder
    | none => findRuleIdsAux fuel rest

/-- `parse_annotation_suppression`: gate on `@SuppressWarnings`, collect all
`java-perf:RULE_ID` occurrences; `none` when no id is found. -/
def parse_annotation_suppression (line : String) : Option (Finset String) :=
  if !(rsContainsStr line "@SuppressWarnings") then none
  else
    let rule_ids := (findRuleIdsAux line.data.length line.data).toFinset
    if rule_ids = ∅ then none else some rule_ids

/-- Per-file suppression state (`suppression.rs`, `struct SuppressionContext`);
the line map is modelled extensionally. -/
structure SuppressionContext where
  line_suppressions : Nat → Option (Finset String)
  file_suppressions : Finset String
  suppress_all_file : Bool

/-- `SuppressionContext::default`. -/
def SuppressionContext.init : SuppressionContext :=
  { line_suppressions := fun _ => none, file_suppressions := ∅, suppress_all_file := false }

/-- `entry(line).or_default().extend(ids)` on the line map. -/
def SuppressionContext.extendLine (ctx : SuppressionContext) (line_number : Nat)
    (ids : Finset String) : SuppressionContext :=
  { ctx with
    line_suppressions := fun n =>
      if n = line_number then some (((ctx.line_suppressions line_number).getD ∅) ∪ ids)
      else ctx.line_suppressions n }

/-- The per-line body of `SuppressionContext::parse`: apply the comment
directive (same line, next line, or file scope), then the annotation
directive (next line). -/
def SuppressionContext.parseStep (ctx : SuppressionContext) (line_number : Nat)
    (line : String) : SuppressionContext :=
  let ctx1 :=
    match parse_comment_suppression line line_number with
    | some s =>
      match s.suppression_type with
      | SuppressionType.Line => ctx.extendLine line_number s.rule_ids
      | SuppressionType.NextLine => ctx.extendLine (line_number + 1) s.rule_ids
      | SuppressionType.File =>
        if s.rule_ids = ∅ then { ctx with suppress_all_file := true }
        else { ctx with file_suppressions := ctx.file_suppressions ∪ s.rule_ids }
    | none => ctx
  match parse_annotation_suppression line with
  | some rule_ids => ctx1.extendLine (line_number + 1) rule_ids
  | none => ctx1

/-- The enumeration loop of `SuppressionContext::parse`. -/
def SuppressionContext.parseFrom (line_number : Nat) (lines : List String)
    (ctx : SuppressionContext) : SuppressionContext :=
  match lines with
  | [] => ctx
  | line :: rest =>
    SuppressionContext.parseFrom (line_number + 1) rest (ctx.parseStep line_number line)

/-- `SuppressionContext::parse`: fold over the source lines (as produced by
`code.lines()`), numbering them from 1. -/
def SuppressionContext.parse (lines : List String) : SuppressionContext :=
  SuppressionContext.parseFrom 1 lines SuppressionContext.init

/-- `SuppressionContext::is_suppressed`: file-wide-all, then file-wide id,
then the line-specific set (empty set means everything is suppressed there). -/
def SuppressionContext.is_suppressed (ctx : SuppressionContext) (rule_id : String)
    (line : Nat) : Bool :=
  if ctx.suppress_all_file then true
  else if rule_id ∈ ctx.file_suppressions then true
  else
    match ctx.line_suppressions line with
    | some suppressed_rules =>
      if suppressed_rules = ∅ ∨ rule_id ∈ suppressed_rules then true else false
    | none => false

/-- `SuppressionContext::is_file_suppressed`. -/
def SuppressionContext.is_file_suppressed (ctx : SuppressionContext) : Bool :=
  ctx.suppress_all_file

/-! ## Statement-support definitions

Predicates used to state the verified properties, plus the concrete fixtures
used by witnesses and counterexamples.
-/

/-- Two partial maps agree on every key present in both. -/
def MapsAgree {α β : Type} (f g : α → Option β) : Prop :=
  ∀ k v w, f k = some v → g k = some w → v = w

/-- Permutation equivalence of optional lists (present entries are equal up to
order; absence is preserved). -/
def optPerm {β : Type} : Option (List β) → Option (List β) → Prop
  | none, none => True
  | some x, some y => x.Perm y
  | _, _ => False

/-- Every present entry of a map of lists is duplicate-free. -/
def optNodup {α β : Type} (f : α → Option (List β)) : Prop :=
  ∀ k l, f k = some l → l.Nodup

/-- Two symbol tables assign equal values to every shared key of their
plain-value maps. -/
def SymbolTable.AgreeOnShared (a b : SymbolTable) : Prop :=
  MapsAgree a.classes b.classes ∧ MapsAgree a.fields b.fields ∧ MapsAgree a.methods b.methods

/-- The reverse-index entries of a symbol table are duplicate-free. -/
def SymbolTable.IndexNodup (a : SymbolTable) : Prop := optNodup a.simple_name_index

/-- Symbol tables equal up to the order of reverse-index and overload lists:
the plain-value maps are equal, the list-valued maps agree up to permutation. -/
def SymbolTable.EquivPerm (a b : SymbolTable) : Prop :=
  a.classes = b.classes ∧ a.fields = b.fields ∧ a.methods = b.methods
    ∧ (∀ k, optPerm (a.method_index k) (b.method_index k))
    ∧ (∀ k, optPerm (a.simple_name_index k) (b.simple_name_index k))

/-- Two call graphs assign equal values to every shared key of their class
maps. -/
def Taint.CallGraph.AgreeOnShared (a b : Taint.CallGraph) : Prop :=
  MapsAgree a.class_index b.class_index ∧ MapsAgree a.class_layers b.class_layers

/-- Call graphs equal up to the order of the per-method call-site lists. -/
def Taint.CallGraph.EquivPerm (a b : Taint.CallGraph) : Prop :=
  (∀ k, optPerm (a.outgoing k) (b.outgoing k))
    ∧ (∀ k, optPerm (a.incoming k) (b.incoming k))
    ∧ a.class_index = b.class_index ∧ a.class_layers = b.class_layers

/-- A source line carrying no suppression directive at all. -/
def directiveFree (line : String) : Prop :=
  (∀ n, parse_comment_suppression line n = none) ∧ parse_annotation_suppression line = none

/-- The synthetic Controller → Service → Repository chain of the
specification (three registered classes, two call edges). -/
def chainGraph (cfqn sfqn rfqn cm sm rm cfile sfile rfile : String) : Taint.CallGraph :=
  ((((Taint.CallGraph.new.register_class cfqn cfile Taint.LayerType.Controller).register_class
      sfqn sfile Taint.LayerType.Service).register_class
      rfqn rfile Taint.LayerType.Repository).add_call
      (Taint.MethodSig.new_fqn cfqn cm) (Taint.MethodSig.new_fqn sfqn sm) cfile 10).add_call
      (Taint.MethodSig.new_fqn sfqn sm) (Taint.MethodSig.new_fqn rfqn rm) sfile 20

/-- Concrete instance of the synthetic chain. -/
def demoGraph : Taint.CallGraph :=
  chainGraph "com.a.UserController" "com.b.UserService" "com.c.UserRepository"
    "getUsers" "findAll" "findById" "C.java" "S.java" "R.java"

/-- An empty import index (`ImportIndex::default()`). -/
def ImportIndexEmpty : ImportIndex :=
  { explicit := fun _ => none, wildcards := [], package := none, local_classes := [] }

/-- Import index on which all four resolution rules fire for `String`. -/
def prioIdx : ImportIndex :=
  { explicit := fun k => if k = "String" then some "com.e.String" else none,
    wildcards := ["com.w"],
    package := some "com.p",
    local_classes := ["String"] }

/-- Known-classes view containing the wildcard and same-package candidates. -/
def prioKnown : String → Option String :=
  fun k => if k = "com.w.String" then some "String"
    else if k = "com.p.String" then some "String" else none

/-- A repository class registered under its simple name with a dotted FQN, so
that the receiver of a DAO call resolves with full qualification. -/
def repoInfo : TypeInfo :=
  { name := "UserRepository", fqn := "com.example.repo.UserRepository",
    package := some "com.example.repo", annotations := ["Repository"],
    layer := LayerType.Repository, file := "UserRepository.java", line := 1 }

/-- Symbol table for the High-confidence DAO-in-loop scenario: the field
`repo` of `UserService` is bound to type name `UserRepository`, and the
`classes` map resolves that type name to `repoInfo`. -/
def highSt : SymbolTable :=
  { classes := fun k => if k = "UserRepository" then some repoInfo else none,
    simple_name_index := fun _ => none,
    fields := fun k => if k = ("UserService", "repo")
      then some (VarBinding.new "repo" "UserRepository" true) else none,
    methods := fun _ => none,
    method_index := fun _ => none }

/-- TypeInfo fixtures for the merge counterexample: same FQN, different line. -/
def infoA1 : TypeInfo :=
  { name := "A", fqn := "p.A", package := some "p", annotations := [],
    layer := LayerType.Unknown, file := "A1.java", line := 1 }

/-- Conflicting duplicate of `infoA1` (different source line). -/
def infoA2 : TypeInfo :=
  { name := "A", fqn := "p.A", package := some "p", annotations := [],
    layer := LayerType.Unknown, file := "A2.java", line := 2 }

/-- Class `X` in package `p`. -/
def infoPX : TypeInfo :=
  { name := "X", fqn := "p.X", package := some "p", annotations := [],
    layer := LayerType.Unknown, file := "PX.java", line := 1 }

/-- Class `X` in package `q`. -/
def infoQX : TypeInfo :=
  { name := "X", fqn := "q.X", package := some "q", annotations := [],
    layer := LayerType.Unknown, file := "QX.java", line := 1 }

/-- Partial table registering `infoA1`. -/
def tableA1 : SymbolTable := SymbolTable.new.register_class_fqn infoA1

/-- Partial table registering `infoA2`. -/
def tableA2 : SymbolTable := SymbolTable.new.register_class_fqn infoA2

/-- Partial table registering `infoPX`. -/
def tablePX : SymbolTable := SymbolTable.new.register_class_fqn infoPX

/-- Partial table registering `infoQX`. -/
def tableQX : SymbolTable := SymbolTable.new.register_class_fqn infoQX

/-- Identifier node of the syntax-tree fixtures. -/
def identNode (text : String) : JNode := JNode.mk "identifier" text JFields.nil JKids.nil

/-- Method invocation `obj.meth()` of the syntax-tree fixtures. -/
def callNode (obj meth : String) : JNode :=
  JNode.mk "method_invocation" (obj ++ "." ++ meth ++ "()")
    (JFields.cons "object" (identNode obj) (JFields.cons "name" (identNode meth) JFields.nil))
    JKids.nil

/-- Method body in which `tl.set(x)` happens before (outside) a try statement
whose finally calls `tl.remove()`: the cleanup exists and is in a finally, but
that finally does not cover the acquisition. -/
def leakMethodNonCovering : JNode :=
  JNode.mk "method_declaration" "" JFields.nil
    (JKids.cons
      (JNode.mk "expression_statement" "" JFields.nil
        (JKids.cons (callNode "tl" "set") JKids.nil))
      (JKids.cons
        (JNode.mk "try_statement" "" JFields.nil
          (JKids.cons (JNode.mk "block" "" JFields.nil JKids.nil)
            (JKids.cons
              (JNode.mk "finally_clause" "" JFields.nil
                (JKids.cons
                  (JNode.mk "block" "" JFields.nil
                    (JKids.cons (callNode "tl" "remove") JKids.nil))
                  JKids.nil))
              JKids.nil)))
        JKids.nil))

/-- Method body in which `tl.set(x)` sits inside the try block and
`tl.remove()` inside the matching finally: the safe shape. -/
def safeMethodCovering : JNode :=
  JNode.mk "method_declaration" "" JFields.nil
    (JKids.cons
      (JNode.mk "try_statement" "" JFields.nil
        (JKids.cons
          (JNode.mk "block" "" JFields.nil
            (JKids.cons (callNode "tl" "set") JKids.nil))
          (JKids.cons
            (JNode.mk "finally_clause" "" JFields.nil
              (JKids.cons
                (JNode.mk "block" "" JFields.nil
                  (JKids.cons (callNode "tl" "remove") JKids.nil))
                JKids.nil))
            JKids.nil)))
      JKids.nil)

/-! ## Theorems -/

/-- `ImportIndex::resolve` equals the four resolution steps chained in
priority order. -/
theorem ImportIndex.resolve_eq_steps (idx : ImportIndex) (n : String)
    (known : String → Option String) :
    idx.resolve n known =
      match idx.explicit n with
      | some e => some e
      | none =>
        match resolveWildcard idx n known with
        | some w => some w
        | none =>
          match resolveSamePackage idx n known with
          | some s => some s
          | none => resolveJavaLang n known := by
  unfold ImportIndex.resolve resolveWildcard resolveSamePackage
  cases idx.explicit n with
  | some e => rfl
  | none =>
    cases hw : idx.wildcards.find? (fun pkg => (known (pkg ++ "." ++ n)).isSome) with
    | some pkg => simp
    | none =>
      simp only [Option.map_none']
      cases idx.package with
      | none => rfl
      | some pkg =>
        by_cases hl : n ∈ idx.local_classes
        · simp [hl]
        · by_cases hk : (known (pkg ++ "." ++ n)).isSome
          · simp [hl, hk]
          · simp [hl, hk]

/-- C1. Import resolution follows the strict short-circuiting priority
explicit > wildcard > same-package > java.lang fallback, and returns `none`
exactly when no rule applies. -/
theorem ImportIndex.resolve_priority (idx : ImportIndex) (n : String)
    (known : String → Option String) :
    (∀ e, idx.explicit n = some e → idx.resolve n known = some e)
  ∧ (idx.explicit n = none →
      ∀ w, resolveWildcard idx n known = some w → idx.resolve n known = some w)
  ∧ (idx.explicit n = none → resolveWildcard idx n known = none →
      ∀ s, resolveSamePackage idx n known = some s → idx.resolve n known = some s)
  ∧ (idx.explicit n = none → resolveWildcard idx n known = none →
      resolveSamePackage idx n known = none →
      ∀ j, resolveJavaLang n known = some j → idx.resolve n known = some j)
  ∧ (idx.resolve n known = none ↔
      idx.explicit n = none ∧ resolveWildcard idx n known = none ∧
        resolveSamePackage idx n known = none ∧ resolveJavaLang n known = none) := by
  have hsteps := ImportIndex.resolve_eq_steps idx n known
  refine ⟨?_, ?_, ?_, ?_, ?_⟩
  · intro e he
    rw [hsteps, he]
  · intro he w hw
    rw [hsteps, he, hw]
  · intro he hw s hs
    rw [hsteps, he, hw, hs]
  · intro he hw hs j hj
    rw [hsteps, he, hw, hs, hj]
  · rw [hsteps]
    constructor
    · intro h
      cases he : idx.explicit n with
      | some e => rw [he] at h; exact absurd h (by simp)
      | none =>
        rw [he] at h
        cases hw : resolveWildcard idx n known with
        | some w => rw [hw] at h; exact absurd h (by simp)
        | none =>
          rw [hw] at h
          cases hs : resolveSamePackage idx n known with
          | some s => rw [hs] at h; exact absurd h (by simp)
          | none => rw [hs] at h; exact ⟨rfl, rfl, rfl, h⟩
    · rintro ⟨he, hw, hs, hj⟩
      rw [he, hw, hs, hj]

/-- Witness for C1: on a name for which all four rules apply simultaneously,
the explicit import wins. -/
theorem ImportIndex.resolve_priority_witness :
    prioIdx.explicit "String" = some "com.e.String"
  ∧ resolveWildcard prioIdx "String" prioKnown = some "com.w.String"
  ∧ resolveSamePackage prioIdx "String" prioKnown = some "com.p.String"
  ∧ resolveJavaLang "String" prioKnown = some "java.lang.String"
  ∧ prioIdx.resolve "String" prioKnown = some "com.e.String" :=
  ⟨by decide, by decide, by decide, by decide,
    (ImportIndex.resolve_priority prioIdx "String" prioKnown).1 "com.e.String" (by decide)⟩

/-- A string starts with any string appended in front of another. -/
theorem rsStartsWith_append (p r : String) : rsStartsWith (p ++ r) p = true := by
  unfold rsStartsWith
  rw [String.data_append, List.isPrefixOf_iff_prefix]
  exact List.prefix_append _ _

/-- Dropping the 11 characters of the sentinel from `"UNRESOLVED:" ++ r`
recovers `r`. -/
theorem strip_unresolved_sentinel (r : String) :
    (⟨("UNRESOLVED:" ++ r).data.drop 11⟩ : String) = r := by
  rw [String.data_append]
  have h11 : ("UNRESOLVED:" : String).data.length = 11 := rfl
  rw [← h11, List.drop_left]

/-- C4. `MethodSig::resolve`: dotted receivers pass through verbatim;
otherwise the ImportIndex (against the symbol table's FQNs) decides; on
failure the result is the sentinel-tagged unresolved signature, recognizable
by `is_unresolved`, `has_valid_fqn` and `simple_class_name`. -/
theorem MethodSig.resolve_spec (receiver method : String) (idx : ImportIndex)
    (st : SymbolTable) :
    (rsContainsChar receiver '.' = true →
      Taint.MethodSig.resolve receiver method idx st = Taint.MethodSig.new_fqn receiver method)
  ∧ (rsContainsChar receiver '.' = false →
      ∀ fqn, idx.resolve receiver (Taint.SymbolTable.known_classes_map st) = some fqn →
        Taint.MethodSig.resolve receiver method idx st = Taint.MethodSig.new_fqn fqn method)
  ∧ (rsContainsChar receiver '.' = false →
      idx.resolve receiver (Taint.SymbolTable.known_classes_map st) = none →
      (Taint.MethodSig.resolve receiver method idx st).class_fqn = "UNRESOLVED:" ++ receiver
      ∧ (Taint.MethodSig.resolve receiver method idx st).is_unresolved = true
      ∧ (Taint.MethodSig.resolve receiver method idx st).has_valid_fqn = false
      ∧ (Taint.MethodSig.resolve receiver method idx st).simple_class_name = receiver) := by
  refine ⟨?_, ?_, ?_⟩
  · intro hdot
    simp [Taint.MethodSig.resolve, hdot]
  · intro hdot fqn hres
    simp [Taint.MethodSig.resolve, hdot, hres]
  · intro hdot hres
    have hval : Taint.MethodSig.resolve receiver method idx st =
        { class_fqn := "UNRESOLVED:" ++ receiver, name := method } := by
      simp [Taint.MethodSig.resolve, hdot, hres]
    rw [hval]
    refine ⟨rfl, ?_, ?_, ?_⟩
    · exact rsStartsWith_append "UNRESOLVED:" receiver
    · unfold Taint.MethodSig.has_valid_fqn
      rw [rsStartsWith_append "UNRESOLVED:" receiver]
      simp
    · unfold Taint.MethodSig.simple_class_name
      rw [rsStartsWith_append "UNRESOLVED:" receiver]
      simp only [if_true]
      exact strip_unresolved_sentinel receiver

/-- Witness for C4: an unknown simple receiver resolves to the tagged
unresolved signature with all three recognizers agreeing. -/
theorem MethodSig.resolve_spec_witness :
    rsContainsChar "UnknownClass" '.' = false
  ∧ (Taint.MethodSig.resolve "UnknownClass" "someMethod" ImportIndexEmpty SymbolTable.new).class_fqn
      = "UNRESOLVED:UnknownClass"
  ∧ (Taint.MethodSig.resolve "UnknownClass" "someMethod" ImportIndexEmpty SymbolTable.new).is_unresolved
      = true
  ∧ (Taint.MethodSig.resolve "UnknownClass" "someMethod" ImportIndexEmpty SymbolTable.new).simple_class_name
      = "UnknownClass" := by
  have h := (MethodSig.resolve_spec "UnknownClass" "someMethod" ImportIndexEmpty SymbolTable.new).2.2
    (by decide) (by decide)
  exact ⟨by decide, h.1, h.2.1, h.2.2.2⟩

/-- C8. Registering two classes that share a simple name but live in distinct
packages stores two separate entries keyed by the two distinct FQNs, each
retrievable by FQN lookup, and simple-name lookup returns exactly 2 classes. -/
theorem SymbolTable.register_two_same_simple_name
    (name p1 p2 f1 f2 : String) (l1 l2 : Nat)
    (hp1 : p1 ≠ "") (hp2 : p2 ≠ "") (hpp : p1 ≠ p2) :
    (TypeInfo.new_with_package name (some p1) f1 l1).fqn
        ≠ (TypeInfo.new_with_package name (some p2) f2 l2).fqn
      ∧ SymbolTable.lookup_by_fqn
          (SymbolTable.register_class_fqn
            (SymbolTable.register_class_fqn SymbolTable.new
              (TypeInfo.new_with_package name (some p1) f1 l1))
            (TypeInfo.new_with_package name (some p2) f2 l2))
          (TypeInfo.new_with_package name (some p1) f1 l1).fqn
        = some (TypeInfo.new_with_package name (some p1) f1 l1)
      ∧ SymbolTable.lookup_by_fqn
          (SymbolTable.register_class_fqn
            (SymbolTable.register_class_fqn SymbolTable.new
              (TypeInfo.new_with_package name (some p1) f1 l1))
            (TypeInfo.new_with_package name (some p2) f2 l2))
          (TypeInfo.new_with_package name (some p2) f2 l2).fqn
        = some (TypeInfo.new_with_package name (some p2) f2 l2)
      ∧ (SymbolTable.lookup_by_simple_name
          (SymbolTable.register_class_fqn
            (SymbolTable.register_class_fqn SymbolTable.new
              (TypeInfo.new_with_package name (some p1) f1 l1))
            (TypeInfo.new_with_package name (some p2) f2 l2))
          name).length = 2 := by
  set t1 := TypeInfo.new_with_package name (some p1) f1 l1 with ht1
  set t2 := TypeInfo.new_with_package name (some p2) f2 l2 with ht2
  set st := SymbolTable.register_class_fqn (SymbolTable.register_class_fqn SymbolTable.new t1) t2
    with hst
  have hfqn1 : t1.fqn = p1 ++ "." ++ name := by
    simp [t1, TypeInfo.new_with_package, hp1]
  have hfqn2 : t2.fqn = p2 ++ "." ++ name := by
    simp [t2, TypeInfo.new_with_package, hp2]
  have hname1 : t1.name = name := rfl
  have hname2 : t2.name = name := rfl
  have hne : t1.fqn ≠ t2.fqn := by
    rw [hfqn1, hfqn2]
    intro h
    apply hpp
    have hd := congrArg String.data h
    simp only [String.data_append] at hd
    have h1 := List.append_left_injective name.data hd
    have h2 := List.append_left_injective (".").data h1
    exact String.ext h2
  have hclasses : st.classes = fun k =>
      if k = t2.fqn then some t2 else if k = t1.fqn then some t1 else none := rfl
  have hlook1 : st.lookup_by_fqn t1.fqn = some t1 := by
    rw [SymbolTable.lookup_by_fqn, hclasses]
    simp [hne]
  have hlook2 : st.lookup_by_fqn t2.fqn = some t2 := by
    rw [SymbolTable.lookup_by_fqn, hclasses]
    simp
  have hidx : st.simple_name_index name = some [t1.fqn, t2.fqn] := by
    show (if name = t2.name then
        some (pushUnique (((SymbolTable.new.register_class_fqn t1).simple_name_index t2.name).getD [])
          t2.fqn)
      else (SymbolTable.new.register_class_fqn t1).simple_name_index name) = some [t1.fqn, t2.fqn]
    rw [if_pos hname2.symm]
    have hidx1 : (SymbolTable.new.register_class_fqn t1).simple_name_index t2.name
        = some [t1.fqn] := by
      show (if t2.name = t1.name then
          some (pushUnique ((SymbolTable.new.simple_name_index t1.name).getD []) t1.fqn)
        else SymbolTable.new.simple_name_index t2.name) = some [t1.fqn]
      rw [if_pos (hname2.trans hname1.symm)]
      simp [SymbolTable.new, pushUnique]
    rw [hidx1]
    simp only [Option.getD_some]
    have hpu : pushUnique [t1.fqn] t2.fqn = [t1.fqn] ++ [t2.fqn] := by
      unfold pushUnique
      exact if_neg (by simp only [List.mem_singleton]; exact fun h => hne h.symm)
    rw [hpu]
    rfl
  refine ⟨hne, hlook1, hlook2, ?_⟩
  rw [SymbolTable.lookup_by_simple_name, hidx]
  simp only [List.filterMap_cons]
  rw [show st.classes t1.fqn = some t1 from hlook1, show st.classes t2.fqn = some t2 from hlook2]
  rfl

/-- Witness for C8: two classes named `Svc` in packages `com.a` and `com.b`. -/
theorem SymbolTable.register_two_same_simple_name_witness :
    (((SymbolTable.new.register_class_fqn
        (TypeInfo.new_with_package "Svc" (some "com.a") "A.java" 1)).register_class_fqn
        (TypeInfo.new_with_package "Svc" (some "com.b") "B.java" 2)).lookup_by_simple_name
        "Svc").length = 2 :=
  (SymbolTable.register_two_same_simple_name "Svc" "com.a" "com.b" "A.java" "B.java" 1 2
    (by decide) (by decide) (by decide)).2.2.2

/-- Membership after a unique push. -/
theorem mem_pushUnique (l : List String) (x a : String) :
    a ∈ pushUnique l x ↔ a ∈ l ∨ a = x := by
  unfold pushUnique
  by_cases h : x ∈ l
  · simp only [if_pos h]
    constructor
    · exact Or.inl
    · rintro (ha | rfl)
      · exact ha
      · exact h
  · simp [if_neg h]

/-- A unique push preserves freedom from duplicates. -/
theorem nodup_pushUnique (l : List String) (x : String) (h : l.Nodup) :
    (pushUnique l x).Nodup := by
  unfold pushUnique
  by_cases hx : x ∈ l
  · simpa [if_pos hx]
  · simp [if_neg hx, List.nodup_append, h, hx]

/-- Membership in a deduplicating extension. -/
theorem mem_extendUnique (l xs : List String) (a : String) :
    a ∈ extendUnique l xs ↔ a ∈ l ∨ a ∈ xs := by
  induction xs generalizing l with
  | nil => simp [extendUnique]
  | cons c cs ih =>
    show a ∈ extendUnique (pushUnique l c) cs ↔ _
    rw [ih, mem_pushUnique]
    simp [List.mem_cons, or_assoc]

/-- A deduplicating extension of a duplicate-free list is duplicate-free. -/
theorem nodup_extendUnique (l xs : List String) (h : l.Nodup) : (extendUnique l xs).Nodup := by
  induction xs generalizing l with
  | nil => exact h
  | cons c cs ih => exact ih _ (nodup_pushUnique l c h)

/-- A push into a deduplicating extension commutes with extending by the
pushed element. -/
theorem pushUnique_extendUnique (l y : List String) (c : String) :
    pushUnique (extendUnique l y) c = extendUnique l (pushUnique y c) := by
  by_cases h : c ∈ y
  · have h1 : pushUnique y c = y := if_pos h
    rw [h1]
    exact if_pos ((mem_extendUnique l y c).2 (Or.inr h))
  · have h1 : pushUnique y c = y ++ [c] := if_neg h
    rw [h1]
    show pushUnique (extendUnique l y) c = List.foldl pushUnique l (y ++ [c])
    rw [List.foldl_append]
    rfl

/-- The deduplicating extension is associative. -/
theorem extendUnique_assoc (x y z : List String) :
    extendUnique (extendUnique x y) z = extendUnique x (extendUnique y z) := by
  induction z generalizing y with
  | nil => rfl
  | cons c cs ih =>
    show extendUnique (pushUnique (extendUnique x y) c) cs
      = extendUnique x (extendUnique (pushUnique y c) cs)
    rw [pushUnique_extendUnique]
    exact ih (pushUnique y c)

/-- On disjoint duplicate-free input the deduplicating extension is plain
append. -/
theorem extendUnique_append_of_disjoint (acc xs : List String)
    (hd : ∀ a ∈ xs, a ∉ acc) (hx : xs.Nodup) : extendUnique acc xs = acc ++ xs := by
  induction xs generalizing acc with
  | nil => simp [extendUnique]
  | cons c cs ih =>
    have hc : c ∉ acc := hd c (List.mem_cons_self c cs)
    have h1 : pushUnique acc c = acc ++ [c] := if_neg hc
    have hd' : ∀ a ∈ cs, a ∉ acc ++ [c] := by
      intro a ha
      simp only [List.mem_append, List.mem_singleton]
      rintro (h | rfl)
      · exact hd a (List.mem_cons_of_mem _ ha) h
      · exact (List.nodup_cons.1 hx).1 ha
    show extendUnique (pushUnique acc c) cs = acc ++ c :: cs
    rw [h1, ih (acc ++ [c]) hd' (List.nodup_cons.1 hx).2]
    simp

/-- On duplicate-free inputs the deduplicating extension is commutative up to
permutation. -/
theorem extendUnique_perm_comm (x y : List String) (hx : x.Nodup) (hy : y.Nodup) :
    (extendUnique x y).Perm (extendUnique y x) := by
  refine (List.perm_ext_iff_of_nodup (nodup_extendUnique x y hx) (nodup_extendUnique y x hy)).2 ?_
  intro a
  rw [mem_extendUnique, mem_extendUnique]
  exact or_comm

/-- The append-based entry merge is associative. -/
theorem appendEntry_assoc {β : Type} (a b c : Option (List β)) :
    appendEntry (appendEntry a b) c = appendEntry a (appendEntry b c) := by
  cases c with
  | none => rfl
  | some z =>
    cases b with
    | none => cases a <;> rfl
    | some y => cases a <;> simp [appendEntry, List.append_assoc]

/-- The append-based entry merge is commutative up to permutation. -/
theorem appendEntry_comm_perm {β : Type} (a b : Option (List β)) :
    optPerm (appendEntry a b) (appendEntry b a) := by
  cases a with
  | none =>
    cases b with
    | none => exact trivial
    | some y => exact List.Perm.refl y
  | some x =>
    cases b with
    | none => exact List.Perm.refl x
    | some y => exact List.perm_append_comm

/-- The deduplicating entry merge is associative. -/
theorem dedupEntry_assoc (a b c : Option (List String)) :
    dedupEntry (dedupEntry a b) c = dedupEntry a (dedupEntry b c) := by
  cases c with
  | none => rfl
  | some z =>
    cases b with
    | none =>
      show some (extendUnique (a.getD []) z)
        = some (extendUnique (a.getD []) (extendUnique [] z))
      have h := (extendUnique_assoc (a.getD []) [] z).symm
      rw [h]
      rfl
    | some y =>
      show some (extendUnique (extendUnique (a.getD []) y) z)
        = some (extendUnique (a.getD []) (extendUnique y z))
      rw [extendUnique_assoc]

/-- The deduplicating entry merge is commutative up to permutation on
duplicate-free entries. -/
theorem dedupEntry_comm_perm (a b : Option (List String))
    (ha : ∀ l, a = some l → l.Nodup) (hb : ∀ l, b = some l → l.Nodup) :
    optPerm (dedupEntry a b) (dedupEntry b a) := by
  cases a with
  | none =>
    cases b with
    | none => exact trivial
    | some y =>
      show (extendUnique [] y).Perm y
      rw [extendUnique_append_of_disjoint [] y (by simp) (hb y rfl)]
      simp
  | some x =>
    cases b with
    | none =>
      show x.Perm (extendUnique [] x)
      rw [extendUnique_append_of_disjoint [] x (by simp) (ha x rfl)]
      simp
    | some y =>
      show (extendUnique x y).Perm (extendUnique y x)
      exact extendUnique_perm_comm x y (ha x rfl) (hb y rfl)

/-- `HashMap::extend` is associative. -/
theorem extendMap_assoc {α β : Type} (a b c : α → Option β) :
    extendMap (extendMap a b) c = extendMap a (extendMap b c) := by
  funext k
  unfold extendMap
  cases c k <;> cases b k <;> rfl

/-- `HashMap::extend` is commutative when the maps agree on shared keys. -/
theorem extendMap_comm_of_agree {α β : Type} (a b : α → Option β) (h : MapsAgree a b) :
    extendMap a b = extendMap b a := by
  funext k
  unfold extendMap
  cases ha : a k with
  | none => cases hb : b k <;> rfl
  | some v =>
    cases hb : b k with
    | none => rfl
    | some w => rw [h k v w ha hb]

/-- `SymbolTable::merge` is associative. -/
theorem symbolTable_merge_assoc (a b c : SymbolTable) :
    (a.merge b).merge c = a.merge (b.merge c) := by
  refine SymbolTable.ext ?_ ?_ ?_ ?_ ?_
  · exact extendMap_assoc a.classes b.classes c.classes
  · funext k
    exact dedupEntry_assoc (a.simple_name_index k) (b.simple_name_index k)
      (c.simple_name_index k)
  · exact extendMap_assoc a.fields b.fields c.fields
  · exact extendMap_assoc a.methods b.methods c.methods
  · funext k
    exact appendEntry_assoc (a.method_index k) (b.method_index k) (c.method_index k)

/-- `CallGraph::merge` is associative. -/
theorem callGraph_merge_assoc (a b c : Taint.CallGraph) :
    (a.merge b).merge c = a.merge (b.merge c) := by
  refine Taint.CallGraph.ext ?_ ?_ ?_ ?_
  · funext k
    exact appendEntry_assoc (a.outgoing k) (b.outgoing k) (c.outgoing k)
  · funext k
    exact appendEntry_assoc (a.incoming k) (b.incoming k) (c.incoming k)
  · exact extendMap_assoc a.class_index b.class_index c.class_index
  · exact extendMap_assoc a.class_layers b.class_layers c.class_layers

/-- `SymbolTable::merge` is commutative up to order when the partials agree on
shared keys and their reverse-index entries are duplicate-free. -/
theorem symbolTable_merge_comm_of_agree (a b : SymbolTable)
    (hagree : a.AgreeOnShared b) (ha : a.IndexNodup) (hb : b.IndexNodup) :
    (a.merge b).EquivPerm (b.merge a) := by
  obtain ⟨hc, hf, hm⟩ := hagree
  refine ⟨?_, ?_, ?_, ?_, ?_⟩
  · exact extendMap_comm_of_agree a.classes b.classes hc
  · exact extendMap_comm_of_agree a.fields b.fields hf
  · exact extendMap_comm_of_agree a.methods b.methods hm
  · intro k
    exact appendEntry_comm_perm (a.method_index k) (b.method_index k)
  · intro k
    exact dedupEntry_comm_perm (a.simple_name_index k) (b.simple_name_index k)
      (fun l hl => ha k l hl) (fun l hl => hb k l hl)

/-- `CallGraph::merge` is commutative up to order when the partials agree on
shared class keys. -/
theorem callGraph_merge_comm_of_agree (a b : Taint.CallGraph)
    (hagree : a.AgreeOnShared b) :
    (a.merge b).EquivPerm (b.merge a) := by
  obtain ⟨hi, hl⟩ := hagree
  exact ⟨fun k => appendEntry_comm_perm (a.outgoing k) (b.outgoing k),
    fun k => appendEntry_comm_perm (a.incoming k) (b.incoming k),
    extendMap_comm_of_agree a.class_index b.class_index hi,
    extendMap_comm_of_agree a.class_layers b.class_layers hl⟩

/-- C3 counterexample. Merge order is observable: with a conflicting duplicate
FQN the later table wins (`classes` differ), and even with disjoint keys the
reverse-index lists come out in different orders. -/
theorem SymbolTable.merge_not_commutative :
    tableA1.merge tableA2 ≠ tableA2.merge tableA1
  ∧ tablePX.merge tableQX ≠ tableQX.merge tablePX := by
  constructor
  · intro h
    have h2 : (tableA1.merge tableA2).classes "p.A" = (tableA2.merge tableA1).classes "p.A" :=
      congrArg (fun t => t.classes "p.A") h
    have hL : (tableA1.merge tableA2).classes "p.A" = some infoA2 := rfl
    have hR : (tableA2.merge tableA1).classes "p.A" = some infoA1 := rfl
    rw [hL, hR] at h2
    exact absurd (Option.some.inj h2) (by decide)
  · intro h
    have h2 : (tablePX.merge tableQX).simple_name_index "X"
        = (tableQX.merge tablePX).simple_name_index "X" :=
      congrArg (fun t => t.simple_name_index "X") h
    have hL : (tablePX.merge tableQX).simple_name_index "X" = some ["p.X", "q.X"] := rfl
    have hR : (tableQX.merge tablePX).simple_name_index "X" = some ["q.X", "p.X"] := rfl
    rw [hL, hR] at h2
    exact absurd (Option.some.inj h2) (by decide)

/-- C3 (amended). Both merges are associative on the nose; they are
commutative only up to order of the list-valued entries, and only when the two
partials agree on every shared map key (for the symbol table additionally
assuming duplicate-free reverse-index entries). -/
theorem merge_assoc_and_comm_up_to_order :
    (∀ a b c : SymbolTable, (a.merge b).merge c = a.merge (b.merge c))
  ∧ (∀ a b c : Taint.CallGraph, (a.merge b).merge c = a.merge (b.merge c))
  ∧ (∀ a b : SymbolTable, a.AgreeOnShared b → a.IndexNodup → b.IndexNodup →
      (a.merge b).EquivPerm (b.merge a))
  ∧ (∀ a b : Taint.CallGraph, a.AgreeOnShared b → (a.merge b).EquivPerm (b.merge a)) :=
  ⟨symbolTable_merge_assoc, callGraph_merge_assoc,
    symbolTable_merge_comm_of_agree, callGraph_merge_comm_of_agree⟩

/-- Witness for C3 (amended): a concrete associativity instance and a concrete
commutativity-up-to-order instance with its hypotheses discharged. -/
theorem merge_assoc_and_comm_up_to_order_witness :
    ((tableA1.merge tableA2).merge tablePX = tableA1.merge (tableA2.merge tablePX))
  ∧ (tablePX.merge tableQX).EquivPerm (tableQX.merge tablePX) := by
  refine ⟨merge_assoc_and_comm_up_to_order.1 tableA1 tableA2 tablePX, ?_⟩
  refine merge_assoc_and_comm_up_to_order.2.2.1 tablePX tableQX ⟨?_, ?_, ?_⟩ ?_ ?_
  · intro k v w h1 h2
    by_cases hk : k = "p.X"
    · subst hk
      have hq : tableQX.classes "p.X" = none := rfl
      rw [hq] at h2
      exact Option.noConfusion h2
    · have hp : tablePX.classes k = none := by
        show (if k = "p.X" then some infoPX else none) = none
        rw [if_neg hk]
      rw [hp] at h1
      exact Option.noConfusion h1
  · intro k v w h1 h2
    exact Option.noConfusion h1
  · intro k v w h1 h2
    exact Option.noConfusion h1
  · intro k l hl
    by_cases hk : k = "X"
    · subst hk
      have hp : tablePX.simple_name_index "X" = some ["p.X"] := rfl
      rw [hp] at hl
      rw [← Option.some.inj hl]
      decide
    · have hp : tablePX.simple_name_index k = none := by
        show (if k = "X" then some (pushUnique [] "p.X") else none) = none
        rw [if_neg hk]
      rw [hp] at hl
      exact Option.noConfusion hl
  · intro k l hl
    by_cases hk : k = "X"
    · subst hk
      have hq : tableQX.simple_name_index "X" = some ["q.X"] := rfl
      rw [hq] at hl
      rw [← Option.some.inj hl]
      decide
    · have hq : tableQX.simple_name_index k = none := by
        show (if k = "X" then some (pushUnique [] "q.X") else none) = none
        rw [if_neg hk]
      rw [hq] at hl
      exact Option.noConfusion hl

/-- Every path produced by the DFS extends the path accumulator and adds at
most `depth - 1` nodes to it. -/
theorem dfs_trace_prefix_and_length (g : Taint.CallGraph) (target : Taint.LayerType) :
    ∀ (d : Nat) (current : Taint.MethodSig) (path visited : List Taint.MethodSig)
      (p : List Taint.MethodSig), p ∈ g.dfs_trace target d current path visited →
      path <+: p ∧ p.length ≤ path.length + (d - 1) := by
  intro d
  induction d with
  | zero =>
    intro current path visited p hp
    simp only [Taint.CallGraph.dfs_trace] at hp
    exact absurd hp (List.not_mem_nil p)
  | succ e ih =>
    intro current path visited p hp
    simp only [Taint.CallGraph.dfs_trace] at hp
    split at hp
    · rw [List.mem_singleton] at hp
      subst hp
      exact ⟨List.prefix_refl p, by omega⟩
    · split at hp
      · exact absurd hp (List.not_mem_nil p)
      · rw [List.mem_flatMap] at hp
        obtain ⟨cs, hcs, hpcs⟩ := hp
        split at hpcs
        · exact absurd hpcs (List.not_mem_nil p)
        · cases e with
          | zero =>
            simp only [Taint.CallGraph.dfs_trace] at hpcs
            exact absurd hpcs (List.not_mem_nil p)
          | succ f =>
            obtain ⟨hpre, hlen⟩ := ih cs.callee (path ++ [cs.callee]) (cs.callee :: visited) p hpcs
            refine ⟨(List.prefix_append path [cs.callee]).trans hpre, ?_⟩
            simp only [List.length_append, List.length_cons, List.length_nil] at hlen
            omega

/-- C10. Every path returned by `trace_to_layer` begins with the start method
and contains at most `max_depth` nodes. The Lean model of `dfs_trace` recurses
structurally on the strictly decreasing remaining depth (stopping at zero), so
the search is total on every call graph, cyclic ones included. -/
theorem trace_to_layer_paths_bounded (g : Taint.CallGraph) (start : Taint.MethodSig)
    (target : Taint.LayerType) (max_depth : Nat) (p : List Taint.MethodSig)
    (hp : p ∈ g.trace_to_layer start target max_depth) :
    p.head? = some start ∧ p.length ≤ max_depth := by
  have h := dfs_trace_prefix_and_length g target max_depth start [start] [] p hp
  obtain ⟨⟨t, ht⟩, hlen⟩ := h
  constructor
  · rw [← ht]
    rfl
  · cases max_depth with
    | zero =>
      simp only [Taint.CallGraph.trace_to_layer, Taint.CallGraph.dfs_trace] at hp
      exact absurd hp (List.not_mem_nil p)
    | succ e =>
      simp only [List.length_singleton] at hlen
      omega

/-- Witness for C10 on the concrete synthetic chain. -/
theorem trace_to_layer_paths_bounded_witness :
    ([Taint.MethodSig.new_fqn "com.a.UserController" "getUsers",
      Taint.MethodSig.new_fqn "com.b.UserService" "findAll",
      Taint.MethodSig.new_fqn "com.c.UserRepository" "findById"].head?
        = some (Taint.MethodSig.new_fqn "com.a.UserController" "getUsers"))
  ∧ [Taint.MethodSig.new_fqn "com.a.UserController" "getUsers",
      Taint.MethodSig.new_fqn "com.b.UserService" "findAll",
      Taint.MethodSig.new_fqn "com.c.UserRepository" "findById"].length ≤ 5 :=
  trace_to_layer_paths_bounded demoGraph
    (Taint.MethodSig.new_fqn "com.a.UserController" "getUsers")
    Taint.LayerType.Repository 5
    [Taint.MethodSig.new_fqn "com.a.UserController" "getUsers",
     Taint.MethodSig.new_fqn "com.b.UserService" "findAll",
     Taint.MethodSig.new_fqn "com.c.UserRepository" "findById"] (by decide)

/-- C2. On the synthetic chain (three classes in distinct packages registered
as Controller, Service and Repository, with edges Controller-method →
Service-method → Repository-method), tracing from the Controller method to
the Repository layer with depth at least 3 yields exactly one path of exactly
the 3 nodes in call order, and tracing to the Controller layer yields no
path. -/
theorem CallGraph.trace_controller_service_repository
    (cfqn sfqn rfqn cm sm rm cfile sfile rfile : String) (d : Nat)
    (hcs : cfqn ≠ sfqn) (hcr : cfqn ≠ rfqn) (hsr : sfqn ≠ rfqn) (hd : 3 ≤ d) :
    (chainGraph cfqn sfqn rfqn cm sm rm cfile sfile rfile).trace_to_layer
        (Taint.MethodSig.new_fqn cfqn cm) Taint.LayerType.Repository d
      = [[Taint.MethodSig.new_fqn cfqn cm, Taint.MethodSig.new_fqn sfqn sm,
          Taint.MethodSig.new_fqn rfqn rm]]
  ∧ (chainGraph cfqn sfqn rfqn cm sm rm cfile sfile rfile).trace_to_layer
        (Taint.MethodSig.new_fqn cfqn cm) Taint.LayerType.Controller d = [] := by
  obtain ⟨k, rfl⟩ : ∃ k, d = k + 3 := ⟨d - 3, by omega⟩
  have hsc := Ne.symm hcs
  have hrc := Ne.symm hcr
  have hrs := Ne.symm hsr
  set g := chainGraph cfqn sfqn rfqn cm sm rm cfile sfile rfile with hg
  set cSig := Taint.MethodSig.new_fqn cfqn cm with hcSig
  set sSig := Taint.MethodSig.new_fqn sfqn sm with hsSig
  set rSig := Taint.MethodSig.new_fqn rfqn rm with hrSig
  have hCS : cSig ≠ sSig := fun h => hcs (congrArg Taint.MethodSig.class_fqn h)
  have hCR : cSig ≠ rSig := fun h => hcr (congrArg Taint.MethodSig.class_fqn h)
  have hSR : sSig ≠ rSig := fun h => hsr (congrArg Taint.MethodSig.class_fqn h)
  have hSC := Ne.symm hCS
  have hRC := Ne.symm hCR
  have hRS := Ne.symm hSR
  have hlayC : g.class_layers cfqn = some Taint.LayerType.Controller := by
    simp only [hg, chainGraph, Taint.CallGraph.add_call, Taint.CallGraph.register_class,
      Taint.CallGraph.new]
    simp [hcr, hcs]
  have hlayS : g.class_layers sfqn = some Taint.LayerType.Service := by
    simp only [hg, chainGraph, Taint.CallGraph.add_call, Taint.CallGraph.register_class,
      Taint.CallGraph.new]
    simp [hsr]
  have hlayR : g.class_layers rfqn = some Taint.LayerType.Repository := by
    simp only [hg, chainGraph, Taint.CallGraph.add_call, Taint.CallGraph.register_class,
      Taint.CallGraph.new]
    simp
  have houtC : g.outgoing cSig
      = some [{ file := cfile, line := 10, callee := sSig, caller := cSig }] := by
    simp only [hg, chainGraph, Taint.CallGraph.add_call, Taint.CallGraph.register_class,
      Taint.CallGraph.new, ← hcSig, ← hsSig, ← hrSig]
    simp [hCS]
  have houtS : g.outgoing sSig
      = some [{ file := sfile, line := 20, callee := rSig, caller := sSig }] := by
    simp only [hg, chainGraph, Taint.CallGraph.add_call, Taint.CallGraph.register_class,
      Taint.CallGraph.new, ← hcSig, ← hsSig, ← hrSig]
    simp [hSC]
  have houtR : g.outgoing rSig = none := by
    simp only [hg, chainGraph, Taint.CallGraph.add_call, Taint.CallGraph.register_class,
      Taint.CallGraph.new, ← hcSig, ← hsSig, ← hrSig]
    simp [hRS, hRC]
  have hfC : cSig.class_fqn = cfqn := rfl
  have hfS : sSig.class_fqn = sfqn := rfl
  have hfR : rSig.class_fqn = rfqn := rfl
  constructor
  · show g.dfs_trace Taint.LayerType.Repository (k + 3) cSig [cSig] [] = _
    simp [Taint.CallGraph.dfs_trace, hfC, hfS, hfR, hlayC, hlayS, hlayR,
      houtC, houtS, houtR, hCS, hCR, hSR, hSC, hRC, hRS]
  · show g.dfs_trace Taint.LayerType.Controller (k + 3) cSig [cSig] [] = _
    simp [Taint.CallGraph.dfs_trace, hfC, hfS, hfR, hlayC, hlayS, hlayR,
      houtC, houtS, houtR, hCS, hCR, hSR, hSC, hRC, hRS]

/-- Witness for C2 at concrete packages, classes and methods. -/
theorem CallGraph.trace_controller_service_repository_witness :
    demoGraph.trace_to_layer (Taint.MethodSig.new_fqn "com.a.UserController" "getUsers")
        Taint.LayerType.Repository 5
      = [[Taint.MethodSig.new_fqn "com.a.UserController" "getUsers",
          Taint.MethodSig.new_fqn "com.b.UserService" "findAll",
          Taint.MethodSig.new_fqn "com.c.UserRepository" "findById"]]
  ∧ demoGraph.trace_to_layer (Taint.MethodSig.new_fqn "com.a.UserController" "getUsers")
        Taint.LayerType.Controller 5 = [] :=
  CallGraph.trace_controller_service_repository "com.a.UserController" "com.b.UserService"
    "com.c.UserRepository" "getUsers" "findAll" "findById" "C.java" "S.java" "R.java" 5
    (by decide) (by decide) (by decide) (by omega)

mutual
/-- The subtree relation is transitive (node version, mutual with the list
version). -/
theorem occursN_trans {a b : JNode} (h1 : OccursN a b) :
    ∀ {c : JNode}, OccursN b c → OccursN a c
  | _, OccursN.refl _ => h1
  | _, OccursN.inKids hk => OccursN.inKids (occursK_trans h1 hk)

/-- The subtree relation is transitive (list version, mutual with the node
version). -/
theorem occursK_trans {a b : JNode} (h1 : OccursN a b) :
    ∀ {l : JKids}, OccursK b l → OccursK a l
  | _, OccursK.head hn => OccursK.head (occursN_trans h1 hn)
  | _, OccursK.tail hk => OccursK.tail (occursK_trans h1 hk)
end

/-- A node of a child list together with one of its subtree nodes gives a
subtree node of the list. -/
theorem memKids_occursK {c d : JNode} : ∀ {l : JKids}, MemKids c l → OccursN d c → OccursK d l
  | _, MemKids.head _ _, hd => OccursK.head hd
  | _, MemKids.tail hm, hd => OccursK.tail (memKids_occursK hm hd)

mutual
/-- The cursor search finds a satisfying node exactly when one occurs in the
subtree. -/
theorem anyNode_iff (p : JNode → Bool) :
    (n : JNode) → (anyNode p n = true ↔ ∃ d, OccursN d n ∧ p d = true)
  | .mk k t f c => by
    simp only [anyNode, Bool.or_eq_true]
    constructor
    · rintro (h | h)
      · exact ⟨.mk k t f c, OccursN.refl _, h⟩
      · obtain ⟨d, hd, hp⟩ := (anyKids_iff p c).1 h
        exact ⟨d, OccursN.inKids hd, hp⟩
    · rintro ⟨d, hd, hp⟩
      cases hd with
      | refl => exact Or.inl hp
      | inKids h => exact Or.inr ((anyKids_iff p c).2 ⟨d, h, hp⟩)
/-- List version of `anyNode_iff`. -/
theorem anyKids_iff (p : JNode → Bool) :
    (l : JKids) → (anyKids p l = true ↔ ∃ d, OccursK d l ∧ p d = true)
  | .nil => by
    simp only [anyKids]
    constructor
    · intro h
      cases h
    · rintro ⟨d, hd, _⟩
      cases hd
  | .cons n l => by
    simp only [anyKids, Bool.or_eq_true]
    constructor
    · rintro (h | h)
      · obtain ⟨d, hd, hp⟩ := (anyNode_iff p n).1 h
        exact ⟨d, OccursK.head hd, hp⟩
      · obtain ⟨d, hd, hp⟩ := (anyKids_iff p l).1 h
        exact ⟨d, OccursK.tail hd, hp⟩
    · rintro ⟨d, hd, hp⟩
      cases hd with
      | head h => exact Or.inl ((anyNode_iff p n).2 ⟨d, h, hp⟩)
      | tail h => exact Or.inr ((anyKids_iff p l).2 ⟨d, h, hp⟩)
end

/-- The direct-children search finds a satisfying child exactly when one is a
member of the list. -/
theorem JKids.any_iff (p : JNode → Bool) :
    (l : JKids) → (JKids.any p l = true ↔ ∃ n, MemKids n l ∧ p n = true)
  | .nil => by
    simp only [JKids.any]
    constructor
    · intro h
      cases h
    · rintro ⟨n, hn, _⟩
      cases hn
  | .cons n l => by
    simp only [JKids.any, Bool.or_eq_true]
    constructor
    · rintro (h | h)
      · exact ⟨n, MemKids.head n l, h⟩
      · obtain ⟨m, hm, hp⟩ := (JKids.any_iff p l).1 h
        exact ⟨m, MemKids.tail hm, hp⟩
    · rintro ⟨m, hm, hp⟩
      cases hm with
      | head => exact Or.inl hp
      | tail h => exact Or.inr ((JKids.any_iff p l).2 ⟨m, h, hp⟩)

mutual
/-- The cursor search is monotone in its predicate (node version). -/
theorem anyNode_mono (p q : JNode → Bool) (himp : ∀ x, p x = true → q x = true) :
    (n : JNode) → anyNode p n = true → anyNode q n = true
  | .mk k t f c, h => by
    simp only [anyNode, Bool.or_eq_true] at h ⊢
    cases h with
    | inl h => exact Or.inl (himp _ h)
    | inr h => exact Or.inr (anyKids_mono p q himp c h)
/-- The cursor search is monotone in its predicate (list version). -/
theorem anyKids_mono (p q : JNode → Bool) (himp : ∀ x, p x = true → q x = true) :
    (l : JKids) → anyKids p l = true → anyKids q l = true
  | .nil, h => by exact Bool.noConfusion h
  | .cons n l, h => by
    simp only [anyKids, Bool.or_eq_true] at h ⊢
    cases h with
    | inl h => exact Or.inl (anyNode_mono p q himp n h)
    | inr h => exact Or.inr (anyKids_mono p q himp l h)
end

/-- A cleanup in a finally covering the acquisition is in particular a cleanup
in some finally of the method. -/
theorem covering_implies_finally (m : JNode) (var_name : String)
    (h : removeInCoveringFinally m var_name = true) :
    has_remove_in_finally m var_name = true := by
  refine anyNode_mono _ _ ?_ m h
  intro x hx
  simp only [Bool.and_eq_true] at hx
  obtain ⟨⟨hk, _⟩, hfin⟩ := hx
  unfold tryWithFinallyRemove
  rw [Bool.and_eq_true]
  exact ⟨hk, hfin⟩

/-- A try statement with a remove-bearing finally inside the method yields a
remove call inside the method. -/
theorem finally_remove_gives_remove (m t : JNode) (var_name : String)
    (hocc : OccursN t m) (ht : tryWithFinallyRemove var_name t = true) :
    ∃ r, OccursN r m ∧ isRemoveCall var_name r = true := by
  unfold tryWithFinallyRemove at ht
  rw [Bool.and_eq_true] at ht
  obtain ⟨-, hany⟩ := ht
  obtain ⟨child, hmem, hchild⟩ := (JKids.any_iff _ t.kids).1 hany
  rw [Bool.and_eq_true] at hchild
  obtain ⟨-, hrem⟩ := hchild
  obtain ⟨r, hrocc, hr⟩ := (anyNode_iff _ child).1 hrem
  refine ⟨r, ?_, hr⟩
  have hrt : OccursN r t := by
    cases t with
    | mk k x f c => exact OccursN.inKids (memKids_occursK hmem hrocc)
  exact occursN_trans hrt hocc

/-- C5 (amended). The grading of `determine_severity`: a `remove()` of the
variable inside the finally of any try statement of the method (in particular
inside one covering the acquisition) yields no issue; a `remove()` present but
in no such finally yields `P1`; no `remove()` at all yields `P0` — for every
variable name and every try/finally nesting. -/
theorem determine_severity_grading (m : JNode) (var_name : String) :
    (removeInCoveringFinally m var_name = true → determine_severity m var_name = none)
  ∧ ((∃ t, OccursN t m ∧ tryWithFinallyRemove var_name t = true) →
      determine_severity m var_name = none)
  ∧ (¬(∃ t, OccursN t m ∧ tryWithFinallyRemove var_name t = true) →
      (∃ r, OccursN r m ∧ isRemoveCall var_name r = true) →
      determine_severity m var_name = some Severity.P1)
  ∧ (¬(∃ r, OccursN r m ∧ isRemoveCall var_name r = true) →
      determine_severity m var_name = some Severity.P0) := by
  refine ⟨?_, ?_, ?_, ?_⟩
  · intro h
    have hf : has_remove_in_finally m var_name = true := covering_implies_finally m var_name h
    unfold determine_severity
    rw [hf]
  · intro h
    have hf : has_remove_in_finally m var_name = true := (anyNode_iff _ m).2 h
    unfold determine_severity
    rw [hf]
  · intro hnot hrem
    have hf : has_remove_in_finally m var_name = false := by
      rw [← Bool.not_eq_true]
      intro hc
      exact hnot ((anyNode_iff _ m).1 hc)
    have ha : has_remove_anywhere m var_name = true := (anyNode_iff _ m).2 hrem
    unfold determine_severity
    rw [hf, ha]
  · intro hnot
    have ha : has_remove_anywhere m var_name = false := by
      rw [← Bool.not_eq_true]
      intro hc
      exact hnot ((anyNode_iff _ m).1 hc)
    have hf : has_remove_in_finally m var_name = false := by
      rw [← Bool.not_eq_true]
      intro hc
      obtain ⟨t, hocc, ht⟩ := (anyNode_iff _ m).1 hc
      exact hnot (finally_remove_gives_remove m t var_name hocc ht)
    unfold determine_severity
    rw [hf, ha]

/-- Witness for C5 (amended): the safe shape (set inside the try, remove in
the matching finally) produces no issue; the hypothesis is discharged on the
concrete tree. -/
theorem determine_severity_grading_witness :
    determine_severity safeMethodCovering "tl" = none :=
  (determine_severity_grading safeMethodCovering "tl").1 (by decide)

/-- C5 counterexample: with the acquisition before the try statement, the
cleanup exists and sits in a finally that does not cover the acquisition; the
claim demands a `P1` issue, but `determine_severity` reports no issue, because
`has_remove_in_finally` accepts a remove in any finally of the method. -/
theorem determine_severity_noncovering_cex :
    has_remove_anywhere leakMethodNonCovering "tl" = true
  ∧ removeInCoveringFinally leakMethodNonCovering "tl" = false
  ∧ determine_severity leakMethodNonCovering "tl" = none := by
  refine ⟨by decide, by decide, by decide⟩

/-- C9. DAO-in-loop confidence grading of `NPlusOneHandler::handle`: the
resolved Repository-typed receiver (`repo.findById` with a package-qualified
FQN) yields exactly one issue at the captured call line with High confidence;
a receiver classified as DAO whose type FQN is unresolved yields Medium; pure
naming heuristics (no receiver, or no symbol table) yield Low. -/
theorem NPlusOneHandler.confidence_grading :
    (∀ line : Nat, ((NPlusOneHandler.handle (some highSt) none "UserService" "repo" "findById"
        "UserService.java" line Severity.P0 "N+1 query in loop").map
        (fun i => (i.id, i.line, i.confidence)))
      = some ("N_PLUS_ONE", line, some Confidence.High))
  ∧ (∀ (st : SymbolTable) (cls recv meth file : String) (line : Nat) (sev : Severity)
        (desc : String), recv ≠ "" → st.is_dao_call cls recv meth = true →
      ((st.lookup_var_type cls recv).map (fun ti => rsContainsChar ti.fqn '.')).getD false
          = false →
      (NPlusOneHandler.handle (some st) none cls recv meth file line sev desc).map
          (fun i => i.confidence) = some (some Confidence.Medium))
  ∧ (∀ (st : SymbolTable) (cls meth file : String) (line : Nat) (sev : Severity)
        (desc : String), NPlusOneHandler.is_dao_method meth = true →
      (NPlusOneHandler.handle (some st) none cls "" meth file line sev desc).map
          (fun i => i.confidence) = some (some Confidence.Low))
  ∧ (∀ (cls recv meth file : String) (line : Nat) (sev : Severity) (desc : String),
      (NPlusOneHandler.is_dao_method meth || NPlusOneHandler.is_dao_receiver recv) = true →
      (NPlusOneHandler.handle none none cls recv meth file line sev desc).map
          (fun i => i.confidence) = some (some Confidence.Low)) := by
  refine ⟨?_, ?_, ?_, ?_⟩
  · intro line
    rfl
  · intro st cls recv meth file line sev desc hne hdao hfqn
    simp [NPlusOneHandler.handle, NPlusOneHandler.suspicion, hne, hdao, hfqn,
      NPlusOneHandler.callChainInfo]
  · intro st cls meth file line sev desc hm
    simp [NPlusOneHandler.handle, NPlusOneHandler.suspicion, hm,
      NPlusOneHandler.callChainInfo]
  · intro cls recv meth file line sev desc h
    simp [NPlusOneHandler.handle, NPlusOneHandler.suspicion, h,
      NPlusOneHandler.callChainInfo]

/-- Witness for C9: the High scenario at line 42, and a Medium instance whose
hypotheses are discharged on concrete inputs. -/
theorem NPlusOneHandler.confidence_grading_witness :
    ((NPlusOneHandler.handle (some highSt) none "UserService" "repo" "findById"
        "UserService.java" 42 Severity.P0 "N+1 query in loop").map
        (fun i => (i.id, i.line, i.confidence)))
      = some ("N_PLUS_ONE", 42, some Confidence.High)
  ∧ (NPlusOneHandler.handle (some SymbolTable.new) none "C" "repo" "findById" "f" 7 Severity.P0
        "d").map (fun i => i.confidence) = some (some Confidence.Medium) := by
  refine ⟨NPlusOneHandler.confidence_grading.1 42, ?_⟩
  exact NPlusOneHandler.confidence_grading.2.1 SymbolTable.new "C" "repo" "findById" "f" 7
    Severity.P0 "d" (by decide) (by decide) (by decide)

/-- C6. The bare file-wide marker carrying no ids, `// java-perf-ignore-file`,
is the documented way to suppress all rules for the file, but the directive
regex demands a colon followed by at least one id-class character, so the
parser recognizes nothing: no suppression results at all. (With a colon and a
trailing blank the all-suppressing flag is set, confirming the intended
behavior is otherwise reachable.) -/
theorem ignore_file_bare_marker_not_recognized :
    parse_comment_suppression "// java-perf-ignore-file" 1 = none
  ∧ (SuppressionContext.parse ["// java-perf-ignore-file"]).suppress_all_file = false
  ∧ (SuppressionContext.parse ["// java-perf-ignore-file"]).is_suppressed "N_PLUS_ONE" 1 = false
  ∧ (SuppressionContext.parse ["// java-perf-ignore-file: "]).suppress_all_file = true :=
  ⟨by decide, by decide, by decide, by decide⟩

/-- A step of the parse loop over a directive-free line changes nothing. -/
theorem parseStep_directiveFree (ctx : SuppressionContext) (n : Nat) (line : String)
    (h : directiveFree line) : ctx.parseStep n line = ctx := by
  simp only [SuppressionContext.parseStep, h.1 n, h.2]

/-- The parse loop over directive-free lines changes nothing. -/
theorem parseFrom_directiveFree (lines : List String) :
    ∀ (n : Nat) (ctx : SuppressionContext), (∀ l ∈ lines, directiveFree l) →
      SuppressionContext.parseFrom n lines ctx = ctx := by
  induction lines with
  | nil => intro n ctx _; rfl
  | cons l rest ih =>
    intro n ctx h
    show SuppressionContext.parseFrom (n + 1) rest (ctx.parseStep n l) = ctx
    rw [parseStep_directiveFree ctx n l (h l (List.mem_cons_self l rest))]
    exact ih (n + 1) ctx (fun x hx => h x (List.mem_cons_of_mem l hx))

/-- The parse loop splits over a line-list append, shifting the numbering. -/
theorem parseFrom_append (ys xs : List String) :
    ∀ (n : Nat) (ctx : SuppressionContext),
      SuppressionContext.parseFrom n (xs ++ ys) ctx
        = SuppressionContext.parseFrom (n + xs.length) ys
            (SuppressionContext.parseFrom n xs ctx) := by
  induction xs with
  | nil => intro n ctx; rfl
  | cons x xs ih =>
    intro n ctx
    show SuppressionContext.parseFrom (n + 1) (xs ++ ys) (ctx.parseStep n x) = _
    rw [ih (n + 1) (ctx.parseStep n x)]
    have hlen : n + 1 + xs.length = n + (x :: xs).length := by
      simp only [List.length_cons]
      omega
    rw [hlen]
    rfl

/-- Parsing a file whose only directive-bearing line is `dline` reduces to the
single parse step on that line, numbered by its 1-based position. -/
theorem parse_single_directive (pre post : List String) (dline : String)
    (hpre : ∀ l ∈ pre, directiveFree l) (hpost : ∀ l ∈ post, directiveFree l) :
    SuppressionContext.parse (pre ++ dline :: post)
      = SuppressionContext.init.parseStep (pre.length + 1) dline := by
  unfold SuppressionContext.parse
  rw [parseFrom_append (dline :: post) pre 1 SuppressionContext.init]
  rw [parseFrom_directiveFree pre 1 SuppressionContext.init hpre]
  show SuppressionContext.parseFrom (1 + pre.length + 1) post
      (SuppressionContext.init.parseStep (1 + pre.length) dline) = _
  rw [parseFrom_directiveFree post _ _ hpost]
  have h : 1 + pre.length = pre.length + 1 := Nat.add_comm 1 pre.length
  rw [h]

/-- Lines with neither the comment marker nor the annotation marker carry no
directive. -/
theorem directiveFree_of_no_marker (line : String)
    (h1 : rsContainsStr line "java-perf-ignore" = false)
    (h2 : rsContainsStr line "@SuppressWarnings" = false) : directiveFree line := by
  constructor
  · intro n
    unfold parse_comment_suppression
    rw [h1]
    rfl
  · unfold parse_annotation_suppression
    rw [h2]
    rfl

/-- C7. `is_suppressed` returns true exactly for the file-wide-all flag, a
file-wide id match, or a line-specific set that is empty or contains the rule;
and on a file whose single directive is same-line (resp. next-line) naming
`ids`, a rule is suppressed exactly at the directive's own line (resp. the
immediately following line). -/
theorem is_suppressed_spec :
    (∀ (ctx : SuppressionContext) (rule_id : String) (line : Nat),
      ctx.is_suppressed rule_id line = true ↔
        (ctx.suppress_all_file = true ∨ rule_id ∈ ctx.file_suppressions ∨
          ∃ s, ctx.line_suppressions line = some s ∧ (s = ∅ ∨ rule_id ∈ s)))
  ∧ (∀ (pre post : List String) (dline : String) (ids : Finset String),
      (∀ l ∈ pre, directiveFree l) → (∀ l ∈ post, directiveFree l) →
      (∀ n, parse_comment_suppression dline n
          = some { suppression_type := SuppressionType.Line, rule_ids := ids, line := n }) →
      parse_annotation_suppression dline = none →
      ∀ (r : String) (lnum : Nat),
        (SuppressionContext.parse (pre ++ dline :: post)).is_suppressed r lnum = true ↔
          (lnum = pre.length + 1 ∧ (ids = ∅ ∨ r ∈ ids)))
  ∧ (∀ (pre post : List String) (dline : String) (ids : Finset String),
      (∀ l ∈ pre, directiveFree l) → (∀ l ∈ post, directiveFree l) →
      (∀ n, parse_comment_suppression dline n
          = some { suppression_type := SuppressionType.NextLine, rule_ids := ids, line := n }) →
      parse_annotation_suppression dline = none →
      ∀ (r : String) (lnum : Nat),
        (SuppressionContext.parse (pre ++ dline :: post)).is_suppressed r lnum = true ↔
          (lnum = pre.length + 2 ∧ (ids = ∅ ∨ r ∈ ids))) := by
  refine ⟨?_, ?_, ?_⟩
  · intro ctx rule_id line
    unfold SuppressionContext.is_suppressed
    by_cases hall : ctx.suppress_all_file = true
    · simp [hall]
    · by_cases hfile : rule_id ∈ ctx.file_suppressions
      · simp [hall, hfile]
      · cases hline : ctx.line_suppressions line with
        | none => simp [hall, hfile, hline]
        | some s =>
          simp only [hall, hfile, hline, if_neg, if_false]
          by_cases hc : s = ∅ ∨ rule_id ∈ s
          · simp [hall, hfile, hc]
          · simp [hall, hfile, hc]
  · intro pre post dline ids hpre hpost hd hda r lnum
    rw [parse_single_directive pre post dline hpre hpost]
    have hstep : SuppressionContext.init.parseStep (pre.length + 1) dline
        = SuppressionContext.init.extendLine (pre.length + 1) ids := by
      simp only [SuppressionContext.parseStep, hd (pre.length + 1), hda]
    rw [hstep]
    unfold SuppressionContext.is_suppressed SuppressionContext.extendLine SuppressionContext.init
    simp only [Finset.not_mem_empty, if_false, Bool.false_eq_true, Option.getD_none,
      Finset.empty_union]
    by_cases hl : lnum = pre.length + 1
    · by_cases hc : ids = ∅ ∨ r ∈ ids
      · simp [hl, hc]
      · simp [hl, hc]
    · simp [hl]
  · intro pre post dline ids hpre hpost hd hda r lnum
    rw [parse_single_directive pre post dline hpre hpost]
    have hstep : SuppressionContext.init.parseStep (pre.length + 1) dline
        = SuppressionContext.init.extendLine (pre.length + 1 + 1) ids := by
      simp only [SuppressionContext.parseStep, hd (pre.length + 1), hda]
    rw [hstep]
    unfold SuppressionContext.is_suppressed SuppressionContext.extendLine SuppressionContext.init
    simp only [Finset.not_mem_empty, if_false, Bool.false_eq_true, Option.getD_none,
      Finset.empty_union]
    by_cases hl : lnum = pre.length + 1 + 1
    · by_cases hc : ids = ∅ ∨ r ∈ ids
      · simp [hl, hc]
      · simp [hl, hc]
    · simp only [if_neg hl]
      constructor
      · intro h
        exact Bool.noConfusion h
      · rintro ⟨h, -⟩
        omega

/-- Witness for C7: a same-line directive suppresses its rule at its own line
(line 2), and a next-line directive at the following line (line 3). -/
theorem is_suppressed_spec_witness :
    (SuppressionContext.parse
        ["class A", "// java-perf-ignore: N_PLUS_ONE", "end"]).is_suppressed "N_PLUS_ONE" 2
      = true
  ∧ (SuppressionContext.parse
        ["class A", "// java-perf-ignore-next-line: N_PLUS_ONE", "end"]).is_suppressed
        "N_PLUS_ONE" 3 = true := by
  constructor
  · refine (is_suppressed_spec.2.1 ["class A"] ["end"] "// java-perf-ignore: N_PLUS_ONE"
      {"N_PLUS_ONE"} ?_ ?_ ?_ ?_ "N_PLUS_ONE" 2).2 ⟨rfl, Or.inr (by decide)⟩
    · intro l hl
      rw [List.mem_singleton] at hl
      subst hl
      exact directiveFree_of_no_marker "class A" (by decide) (by decide)
    · intro l hl
      rw [List.mem_singleton] at hl
      subst hl
      exact directiveFree_of_no_marker "end" (by decide) (by decide)
    · intro n
      rfl
    · rfl
  · refine (is_suppressed_spec.2.2 ["class A"] ["end"] "// java-perf-ignore-next-line: N_PLUS_ONE"
      {"N_PLUS_ONE"} ?_ ?_ ?_ ?_ "N_PLUS_ONE" 3).2 ⟨rfl, Or.inr (by decide)⟩
    · intro l hl
      rw [List.mem_singleton] at hl
      subst hl
      exact directiveFree_of_no_marker "class A" (by decide) (by decide)
    · intro l hl
      rw [List.mem_singleton] at hl
      subst hl
      exact directiveFree_of_no_marker "end" (by decide) (by decide)
    · intro n
      rfl
    · rfl
